import Mathlib

/-!
Verification of the TP-Link SafeLoader firmware image tool
(src/tplink-safeloader.c) against its natural-language specification.

Bytes are modelled as natural numbers (values < 256 where they come from
the program); byte buffers are either explicit lists (`List Nat`) or, for
the large image buffers that the C code fills by `memset`/`memcpy`, total
functions `Nat → Nat` from offsets to byte values together with an
explicit length.  All machine integers are modelled as `Nat` with
explicit `% 2^32` where 32-bit wrap-around can occur in the C code.
-/

set_option maxRecDepth 8192

namespace Safeloader

/-- Byte list of a string literal: the ASCII/UTF-8 code points of its
characters.  Used only for ASCII literals appearing in the C source. -/
def str (s : String) : List Nat := s.data.map Char.toNat

/-- Big-endian encoding of a 32-bit value, as written by `put32` /
`htonl` in the C source (each byte store truncates to 8 bits). -/
def be32 (v : Nat) : List Nat :=
  [v / 2 ^ 24 % 256, v / 2 ^ 16 % 256, v / 2 ^ 8 % 256, v % 256]

/-- Big-endian 32-bit value of the first four bytes of a list, as read by
`ntohl(*(uint32_t *)buf)` on a big-endian wire format. -/
def be32val (l : List Nat) : Nat :=
  l.getD 0 0 * 2 ^ 24 + l.getD 1 0 * 2 ^ 16 + l.getD 2 0 * 2 ^ 8 + l.getD 3 0

/-- Result of a 32-bit unsigned subtraction `a - b` in C: the value
modulo 2^32, wrapping when `b > a`. -/
def wrapSub (a b : Nat) : Nat :=
  (a % 2 ^ 32 + (2 ^ 32 - b % 2 ^ 32)) % 2 ^ 32

/-- ALIGN(x, a) from the C source: round `x` up to the next multiple of
`a`.  The C computes `((x + a - 1) & ~(a - 1))` for a power of two `a`,
which equals rounding down `x + a - 1` to a multiple of `a`. -/
def align (x a : Nat) : Nat := (x + a - 1) / a * a

/-- Overwrite of a buffer (modelled as a function from offsets to bytes)
with `data` starting at offset `off`, as a C `memcpy` into a larger
buffer. -/
def writeBytes (buf : Nat → Nat) (off : Nat) (data : List Nat) : Nat → Nat :=
  fun i => if off ≤ i ∧ i - off < data.length then data.getD (i - off) 0 else buf i

/-- Contents of `n` consecutive bytes of a buffer starting at `off`. -/
def extract (buf : Nat → Nat) (off n : Nat) : List Nat :=
  (List.range n).map (fun i => buf (off + i))

/-- Application of a list of (offset, data) writes, in order, to the
all-0xFF buffer that `malloc` + `memset(_, 0xff, _)` produces.  Later
writes shadow earlier ones, exactly as sequential `memcpy`s do. -/
def foldWrites (ws : List (Nat × List Nat)) : Nat → Nat :=
  ws.foldl (fun b w => writeBytes b w.1 w.2) (fun _ => 0xff)

/-- MD5 salt `md5_salt` from the C source. -/
def md5_salt : List Nat :=
  [0x7a, 0x2b, 0x15, 0xed, 0x9b, 0x98, 0x59, 0x6d,
   0xe5, 0x04, 0xab, 0x44, 0xac, 0x2a, 0x9f, 0x4e]

/-- The jffs2 end-of-filesystem marker `jffs2_eof_mark`. -/
def jffs2_eof_mark : List Nat := [0xde, 0xad, 0xc0, 0xde]

/-- SAFELOADER_PREAMBLE_SIZE. -/
def SAFELOADER_PREAMBLE_SIZE : Nat := 0x14
/-- SAFELOADER_HEADER_SIZE. -/
def SAFELOADER_HEADER_SIZE : Nat := 0x1000
/-- SAFELOADER_PAYLOAD_OFFSET = preamble + header. -/
def SAFELOADER_PAYLOAD_OFFSET : Nat := SAFELOADER_PREAMBLE_SIZE + SAFELOADER_HEADER_SIZE
/-- SAFELOADER_QNEW_HEADER_SIZE. -/
def SAFELOADER_QNEW_HEADER_SIZE : Nat := 0x3C
/-- SAFELOADER_QNEW_PAYLOAD_OFFSET = preamble + qnew header + header. -/
def SAFELOADER_QNEW_PAYLOAD_OFFSET : Nat :=
  SAFELOADER_PREAMBLE_SIZE + SAFELOADER_QNEW_HEADER_SIZE + SAFELOADER_HEADER_SIZE
/-- SAFELOADER_PAYLOAD_TABLE_SIZE. -/
def SAFELOADER_PAYLOAD_TABLE_SIZE : Nat := 0x800
/-- MAX_PARTITIONS. -/
def MAX_PARTITIONS : Nat := 32

/-- A flash partition table entry (struct flash_partition_entry): name,
32-bit base and 32-bit size. -/
structure FlashEntry where
  name : List Nat
  base : Nat
  size : Nat
deriving DecidableEq, Repr

/-- An image partition entry (struct image_partition_entry); the C
`size` field always equals the length of the owned `data` buffer. -/
structure ImgPart where
  name : List Nat
  data : List Nat
deriving DecidableEq, Repr

/-- PART_TRAIL_NONE from enum partition_trail_value; trail values
0x00..0xff are literal pad bytes. -/
def PART_TRAIL_NONE : Nat := 0x100

/-- meta_partition_should_pad: the C checks `pv >= 0 && pv <= PART_TRAIL_MAX`
(PART_TRAIL_MAX = 0xff); the enum values used are never negative, so only
the upper bound is meaningful for the Nat model. -/
def meta_partition_should_pad (pv : Nat) : Bool := pv ≤ 0xff

/-- init_meta_partition_entry: an 8-byte meta header (payload length as a
big-endian u32, then a zero u32), the payload, and a single trailing pad
byte exactly when the trail policy designates a pad value.  The C stores
the length through `htonl(data_len)` with `data_len` a `uint32_t`, hence
the `% 2^32`; the pad byte is cast to `uint8_t`, hence the `% 256`. -/
def init_meta_partition_entry (name : List Nat) (data : List Nat) (pad_value : Nat) :
    ImgPart :=
  { name := name
    data := be32 (data.length % 2 ^ 32) ++ [0, 0, 0, 0] ++ data ++
      (if meta_partition_should_pad pad_value then [pad_value % 256] else []) }

/-- Lowercase hexadecimal digit character code for a value < 16, as
produced by printf %x. -/
def hexDigit (d : Nat) : Nat := if d < 10 then 0x30 + d else 0x61 + (d - 10)

/-- Digit-extraction loop for natHex, structurally recursive on a fuel
bound; the fallback at fuel 0 is never reached when the fuel is at
least the argument, since n / 16 < n for n ≥ 16. -/
def natHexAux : Nat → Nat → List Nat
  | 0, n => [hexDigit n]
  | fuel + 1, n =>
    if n < 16 then [hexDigit n]
    else natHexAux fuel (n / 16) ++ [hexDigit (n % 16)]

/-- Hexadecimal digit string (most significant first) of a natural
number, lowercase, as printed by printf %x. -/
def natHex (n : Nat) : List Nat := natHexAux n n

/-- Zero-padded %05x field: at least five hex digits. -/
def hex5 (n : Nat) : List Nat :=
  List.replicate (5 - (natHex n).length) 0x30 ++ natHex n

/-- Test for a hexadecimal digit byte (as accepted by strtoul with
base 16: 0-9, a-f, A-F). -/
def isHexDigitB (b : Nat) : Bool :=
  (0x30 ≤ b ∧ b ≤ 0x39) ∨ (0x61 ≤ b ∧ b ≤ 0x66) ∨ (0x41 ≤ b ∧ b ≤ 0x46)

/-- Numeric value of a hexadecimal digit byte. -/
def hexVal (b : Nat) : Nat :=
  if b ≤ 0x39 then b - 0x30 else if b ≤ 0x46 then b - 0x41 + 10 else b - 0x61 + 10

/-- Greedy accumulation of hexadecimal digits, stopping at the first
non-digit byte, as the digit loop of strtoul does. -/
def parseHexAcc : List Nat → Nat → Nat
  | [], acc => acc
  | b :: r, acc => if isHexDigitB b then parseHexAcc r (16 * acc + hexVal b) else acc

/-- Test for the bytes isspace() accepts in the C locale. -/
def isSpaceB (b : Nat) : Bool := b = 0x20 ∨ (0x09 ≤ b ∧ b ≤ 0x0d)

/-- Value of strtoul(ptr, NULL, 16) on a byte list: skip leading
whitespace, accept one optional sign, skip an optional 0x/0X marker, and
accumulate hexadecimal digits greedily.  A leading minus negates the
value modulo the 64-bit unsigned long range, as the C conversion does.
(Saturating overflow of values that need more than 16 hex digits is not
modelled; the decoder below only meets fields printed with %05x from
32-bit quantities.) -/
def strtoul16 (l : List Nat) : Nat :=
  let l1 := l.dropWhile isSpaceB
  match l1 with
  | 0x2d :: r => (2 ^ 64 - strtoul16body r % 2 ^ 64) % 2 ^ 64
  | 0x2b :: r => strtoul16body r
  | _ => strtoul16body l1
where
  /-- Digit part of strtoul16: an optional 0x/0X marker, then digits. -/
  strtoul16body : List Nat → Nat
    | 0x30 :: 0x78 :: r => parseHexAcc r 0
    | 0x30 :: 0x58 :: r => parseHexAcc r 0
    | l => parseHexAcc l 0

/-- One line of the image partition table, as formatted by
snprintf(_, _, "fwup-ptn %s base 0x%05x size 0x%05x\t\r\n", ...) in
put_partitions (the terminating NUL that snprintf also stores is handled
by the callers below). -/
def fwupLine (name : List Nat) (base size : Nat) : List Nat :=
  str "fwup-ptn " ++ name ++ str " base 0x" ++ hex5 base ++
    str " size 0x" ++ hex5 size ++ [0x09, 0x0d, 0x0a]

/-- One line of the flash partition table, as formatted by
snprintf(_, _, "partition %s base 0x%05x size 0x%05x\n", ...) in
make_partition_table. -/
def flashLine (name : List Nat) (base size : Nat) : List Nat :=
  str "partition " ++ name ++ str " base 0x" ++ hex5 base ++
    str " size 0x" ++ hex5 size ++ [0x0a]

/-- Concatenation of the fwup-ptn lines for a list of
(name, base, size) triples, in order.  The base and size fields are
printed through an `unsigned` cast, hence the `% 2^32`. -/
def fwupLines : List (List Nat × Nat × Nat) → List Nat
  | [] => []
  | (nm, b, s) :: ts => fwupLine nm (b % 2 ^ 32) (s % 2 ^ 32) ++ fwupLines ts

/-- Per-line walk of the image-table writer of put_partitions, tracking
the write position inside the 0x800-byte table region.  At each line the
C checks `w > len - 1` (with `len` the remaining space) and fails
fatally on overflow; on success the line is stored at the current
position, and the NUL terminator stored by snprintf is overwritten by
the next line (or survives after the last line). -/
def fwupLinesChecked : List (List Nat × Nat × Nat) → Nat → Option (List Nat)
  | [], _ => some []
  | (nm, b, s) :: ts, pos =>
    let line := fwupLine nm (b % 2 ^ 32) (s % 2 ^ 32)
    if line.length > 0x7ff - pos then none
    else (fwupLinesChecked ts (pos + line.length)).map (line ++ ·)

/-- Contents of the 0x800-byte image partition table region after
put_partitions ran over a buffer pre-filled with 0xFF: the fwup-ptn
lines back to back from offset 0 (no magic header), the NUL stored by
the last snprintf, and untouched 0xFF padding.  With no partitions at
all nothing is written and the whole region keeps its 0xFF fill.
Returns none when the formatted table would overflow the region (the C
exits fatally). -/
def encodeFwupTable (ts : List (List Nat × Nat × Nat)) : Option (List Nat) :=
  (fwupLinesChecked ts 0).map (fun ls =>
    if ls.isEmpty then List.replicate 0x800 0xff
    else ls ++ 0 :: List.replicate (0x7ff - ls.length) 0xff)

/-- Index of the first occurrence of byte `b` in a list. -/
def firstIdx : List Nat → Nat → Option Nat
  | [], _ => none
  | x :: xs, b => if x = b then some 0 else (firstIdx xs b).map (· + 1)

/-- memchr over the window [o, stop) of a buffer: the absolute index of
the first occurrence of `b` there, if any. -/
def memchr (buf : List Nat) (o stop b : Nat) : Option Nat :=
  (firstIdx ((buf.drop o).take (stop - o)) b).map (o + ·)

/-- Outcome of one iteration of the entry-parsing loop of
read_partition_table. -/
inductive ParseStep where
  /-- No line terminator 0x0A remains: the while loop breaks. -/
  | noNewline : ParseStep
  /-- A field separator 0x20 expected before the line terminator was
  missing: error(1, ...) aborts the process. -/
  | fatal : ParseStep
  /-- The inner for loop broke at the guard `end_part <= ptr`; the outer
  loop re-checks the header at absolute position `o`. -/
  | brk (o : Nat) : ParseStep
  /-- A full (name, base, size) entry was parsed; the line terminator
  sat at index `np`, and the outer loop continues at `np + 1`. -/
  | entry (name : List Nat) (base size np : Nat) : ParseStep
deriving DecidableEq, Repr

/-- One iteration of the parsing loop of read_partition_table, starting
at position 0 of `rest` (the unread suffix of the table buffer).  It
mirrors the C loop `for (int i = 0; i <= 4; i++)` over the five
space-separated fields: keyword, name (truncated to 31 bytes by strncpy,
which also stops at a NUL byte), the literal base, the base value
(strtoul), the literal size, and after its separator the size value
(strtoul reads up to the 0x09 of the line terminator). -/
def parseEntry (rest : List Nat) : ParseStep :=
  match memchr rest 0 rest.length 0x0a with
  | none => .noNewline
  | some np =>
    if np ≤ 0 then .brk 0 else
    match memchr rest 0 np 0x20 with
    | none => .fatal
    | some e0 =>
      let o1 := e0 + 1
      if np ≤ o1 then .brk o1 else
      match memchr rest o1 np 0x20 with
      | none => .fatal
      | some e1 =>
        let name := (((rest.drop o1).take (min 31 (e1 - o1))).takeWhile (· ≠ 0))
        let o2 := e1 + 1
        if np ≤ o2 then .brk o2 else
        match memchr rest o2 np 0x20 with
        | none => .fatal
        | some e2 =>
          let o3 := e2 + 1
          if np ≤ o3 then .brk o3 else
          match memchr rest o3 np 0x20 with
          | none => .fatal
          | some e3 =>
            let base := strtoul16 (rest.drop o3)
            let o4 := e3 + 1
            if np ≤ o4 then .brk o4 else
            match memchr rest o4 np 0x20 with
            | none => .fatal
            | some e4 =>
              let size := strtoul16 (rest.drop (e4 + 1))
              .entry name base size np

/-- The while loop of read_partition_table: as long as more than
`hdr.length` bytes remain (the C condition `ptr + strlen(parthdr) < end`)
and the remaining bytes start with the header keyword, parse one entry.
add_flash_partition stores base and size into uint32_t fields (hence the
`% 2^32`) and aborts when all MAX_PARTITIONS slots are taken.  In the
`brk 0` case the byte under the cursor is the line terminator 0x0A, so
with the two header keywords of this program (which start with a letter)
the re-checked loop condition is false and the loop exits; the model
folds that exit into the case. -/
def readLoop (hdr : List Nat) : Nat → List Nat → List FlashEntry →
    Option (List FlashEntry)
  | 0, _, acc => some acc
  | fuel + 1, rest, acc =>
    if hdr.length < rest.length ∧ hdr.isPrefixOf rest then
      match parseEntry rest with
      | .noNewline => some acc
      | .fatal => none
      | .brk o =>
        if o = 0 then some acc
        else readLoop hdr fuel (rest.drop o) acc
      | .entry nm b s np =>
        if acc.length ≥ MAX_PARTITIONS then none
        else readLoop hdr fuel (rest.drop (np + 1))
          (acc ++ [⟨nm, b % 2 ^ 32, s % 2 ^ 32⟩])
    else some acc

/-- read_partition_table on a 0x800-byte buffer `buf` freshly read from
the image, with header keyword `hdr` ("fwup-ptn" for the image table,
"partition" for the flash table).  The C first forces the last buffer
byte to NUL, then returns 1 (header not found, no entries) when the
buffer does not start with the keyword; a missing separator or a full
entry table aborts the process (none).  The parse loop strictly
advances through the buffer at every continuing iteration, so the fuel
bound of one more than the buffer size is never exhausted. -/
def read_partition_table (hdr : List Nat) (buf : List Nat) :
    Option (Bool × List FlashEntry) :=
  let b := buf.set (SAFELOADER_PAYLOAD_TABLE_SIZE - 1) 0
  if hdr.isPrefixOf b then (readLoop hdr (b.length + 1) b []).map (true, ·)
  else some (false, [])

/-- Per-line walk of make_partition_table's flash-table writer,
tracking the write position (which starts at 4, after the magic
header).  The overflow check mirrors `w > len - 1` per line. -/
def flashLinesChecked : List FlashEntry → Nat → Option (List Nat)
  | [], _ => some []
  | e :: ts, pos =>
    let line := flashLine e.name (e.base % 2 ^ 32) (e.size % 2 ^ 32)
    if line.length > 0x7ff - pos then none
    else (flashLinesChecked ts (pos + line.length)).map (line ++ ·)

/-- Concatenation of the flash-form partition lines of
make_partition_table, in order (the uint32_t casts of the printf
arguments give the `% 2^32`). -/
def flashLines : List FlashEntry → List Nat
  | [] => []
  | e :: ts => flashLine e.name (e.base % 2 ^ 32) (e.size % 2 ^ 32) ++ flashLines ts

/-- A synthetic factory image used as a test vector: DEFAULT variant
(64 bytes of 0xFF after the preamble), an image partition table with
os-image (base 0x800, size 2), file-system (base 0x802, size 2) and
partition-table (base 0x804, size 0x800), the two 2-byte payloads, a
flash partition table whose os-image slot (size 1) is smaller than the
image-table os-image partition (size 2), and 4 trailing bytes covering
the converter's flash-table read past the partition content. -/
def c10Image : List Nat :=
  List.replicate 0x14 0 ++
  (List.replicate 0x1000 0xff ++
  ((fwupLines [(str "os-image", 0x800, 2), (str "file-system", 0x802, 2),
      (str "partition-table", 0x804, 0x800)] ++
    0 :: List.replicate 1899 0xff) ++
  ([0xA1, 0xA2] ++
  ([0xB1, 0xB2] ++
  (([0x00, 0x04, 0x00, 0x00] ++
    (flashLines [⟨str "os-image", 0x800, 1⟩, ⟨str "file-system", 0x900, 1⟩] ++
     0 :: List.replicate 1950 0xff)) ++
  List.replicate 4 0xff)))))

/-- make_partition_table: the 0x800-byte partition-table partition.  It
starts with the four magic bytes 00 04 00 00, then one flash-form line
per flash partition, then the byte the C skips with `s++` (for a
non-empty partition list this is the NUL stored by the last snprintf;
with no partitions at all the C leaves that one byte of malloc'd memory
undefined, a case no device profile exercises), then 0xFF fill from
memset.  Returns none when the table text would overflow the region. -/
def make_partition_table (partition_table_name : List Nat)
    (partitions : List FlashEntry) : Option ImgPart :=
  (flashLinesChecked partitions 4).map (fun ls =>
    ⟨partition_table_name,
     [0x00, 0x04, 0x00, 0x00] ++ ls ++ 0 :: List.replicate (0x7ff - 4 - ls.length) 0xff⟩)

/-- bcd: binary-coded decimal byte of a value in [0, 99].  The C
parameter is a uint8_t, so the argument is first truncated to 8 bits. -/
def bcd (v : Nat) : Nat := 0x10 * (v % 256 / 10) + v % 256 % 10

/-- Civil date (year, month, day) of a day count since 1970-01-01, using
the standard era-decomposition algorithm for the proleptic Gregorian
calendar.  Modelled from the spec: the C calls the C library's gmtime
(not part of this repository) to obtain the UTC date of the build
timestamp. -/
def civilFromDays (z : Nat) : Nat × Nat × Nat :=
  let z' := z + 719468
  let era := z' / 146097
  let doe := z' % 146097
  let yoe := (doe - doe / 1460 + doe / 36524 - doe / 146097) / 365
  let y := yoe + era * 400
  let doy := doe - (365 * yoe + yoe / 4 - yoe / 100)
  let mp := (5 * doy + 2) / 153
  let d := doy - (153 * mp + 2) / 5 + 1
  let m := if mp < 10 then mp + 3 else mp - 9
  (if m ≤ 2 then y + 1 else y, m, d)

/-- Type of the soft_ver field of struct device_info. -/
inductive SoftVer where
  /-- SOFT_VER_TYPE_TEXT with the literal text. -/
  | text (t : List Nat) : SoftVer
  /-- SOFT_VER_TYPE_NUMERIC with the three version numbers. -/
  | num (major minor patch : Nat) : SoftVer
deriving DecidableEq, Repr

/-- Resolved partition names (struct factory_partition_names after
set_partition_names filled the defaults). -/
structure PartNames where
  partition_table : List Nat := str "partition-table"
  soft_ver : List Nat := str "soft-version"
  os_image : List Nat := str "os-image"
  support_list : List Nat := str "support-list"
  file_system : List Nat := str "file-system"
  extra_para : List Nat := str "extra-para"
deriving DecidableEq, Repr

/-- Device profile (struct device_info), restricted to the fields the
image builder reads. -/
structure DeviceInfo where
  id : List Nat
  vendor : Option (List Nat)
  support_list : List Nat
  part_trail : Nat
  soft_ver : SoftVer
  soft_ver_compat_level : Nat
  partitions : List FlashEntry
  first_sysupgrade_partition : List Nat
  last_sysupgrade_partition : List Nat
  partition_names : PartNames := {}
deriving DecidableEq, Repr

/-- make_soft_version.  For a text soft-version the payload is the text
with its terminating NUL.  For a numeric soft-version the payload is the
packed struct soft_version: pad byte 0xFF, the three version numbers,
the BCD-coded UTC build date, the revision (big-endian u32) and the
compat level (big-endian u32), the latter omitted when the compat level
is 0.  The build time `t` is the source-date-epoch override when one is
set, otherwise the wall clock `now`; its UTC civil date stands in for
gmtime (see civilFromDays). -/
def make_soft_version (info : DeviceInfo) (rev : Nat)
    (source_date_epoch : Option Nat) (now : Nat) : ImgPart :=
  match info.soft_ver with
  | .text txt =>
    init_meta_partition_entry info.partition_names.soft_ver (txt ++ [0]) info.part_trail
  | .num major minor patch =>
    let t := match source_date_epoch with
      | some e => e
      | none => now
    let c := civilFromDays (t / 86400)
    let tm_year := c.1 - 1900
    let tm_mon := c.2.1 - 1
    let tm_mday := c.2.2
    let s := [0xff, major % 256, minor % 256, patch % 256,
              bcd ((1900 + tm_year) / 100), bcd (tm_year % 100),
              bcd (tm_mon + 1), bcd tm_mday] ++
             be32 (rev % 2 ^ 32) ++ be32 (info.soft_ver_compat_level % 2 ^ 32)
    if info.soft_ver_compat_level = 0 then
      init_meta_partition_entry info.partition_names.soft_ver (s.take 12) info.part_trail
    else
      init_meta_partition_entry info.partition_names.soft_ver s info.part_trail

/-- make_support_list: the support-list text without a terminating
NUL. -/
def make_support_list (info : DeviceInfo) : ImgPart :=
  init_meta_partition_entry info.partition_names.support_list info.support_list
    info.part_trail

/-- make_extra_para. -/
def make_extra_para (info : DeviceInfo) (extra : List Nat) : ImgPart :=
  init_meta_partition_entry info.partition_names.extra_para extra info.part_trail

/-- Uppercasing of an ASCII byte, for the case-insensitive strcasecmp
comparisons of device ids. -/
def upByte (b : Nat) : Nat := if 0x61 ≤ b ∧ b ≤ 0x7a then b - 0x20 else b

/-- strcasecmp equality of two byte strings. -/
def eqNoCase (a b : List Nat) : Bool := a.map upByte = b.map upByte

/-- Device ids that receive an extra-para partition with payload
{0x01, 0x00} in build_image. -/
def extraPara0100Ids : List (List Nat) :=
  [str "ARCHER-A6-V3", str "ARCHER-A7-V5", str "ARCHER-A9-V6",
   str "ARCHER-AX23-V1", str "ARCHER-C2-V3", str "ARCHER-C7-V4",
   str "ARCHER-C7-V5", str "ARCHER-C25-V1", str "ARCHER-C59-V2",
   str "ARCHER-C60-V2", str "ARCHER-C60-V3", str "ARCHER-C6U-V1",
   str "ARCHER-C6-V3", str "DECO-M4R-V4", str "MR70X", str "TLWR1043NV5"]

/-- Device ids that receive an extra-para partition with payload
{0x00, 0x01}. -/
def extraPara0001Ids : List (List Nat) := [str "ARCHER-C6-V2", str "TL-WA1201-V2"]

/-- Device ids that receive an extra-para partition with payload
{0x01, 0x01}. -/
def extraPara0101Ids : List (List Nat) := [str "ARCHER-C6-V2-US", str "EAP245-V3"]

/-- Extra-para payload for a device id, when the id is in one of the
three quirk lists of build_image (matched with strcasecmp). -/
def extraParaFor (id : List Nat) : Option (List Nat) :=
  if extraPara0100Ids.any (eqNoCase id) then some [0x01, 0x00]
  else if extraPara0001Ids.any (eqNoCase id) then some [0x00, 0x01]
  else if extraPara0101Ids.any (eqNoCase id) then some [0x01, 0x01]
  else none

/-- read_file for the file-system partition: the raw rootfs bytes, and
when add_jffs2_eof is set, 0xFF padding up to the next 64 KiB boundary
(measured from the flash file-system partition's base when that
descriptor is known, else from 0) followed by the 4-byte jffs2
end-of-filesystem marker. -/
def read_file_fs (rootfs : List Nat) (add_jffs2_eof : Bool)
    (file_system_partition : Option FlashEntry) : List Nat :=
  if add_jffs2_eof then
    let len := match file_system_partition with
      | some f => align (rootfs.length + f.base) 0x10000 + 4 - f.base
      | none => align rootfs.length 0x10000 + 4
    rootfs ++ List.replicate (len - rootfs.length - 4) 0xff ++ jffs2_eof_mark
  else rootfs

/-- The loop of put_partitions, producing the (offset, bytes) writes it
performs on the payload region (offsets relative to the start of the
image partition table).  For each image partition, in order: look up the
flash partition of the same name (the C's inner strcmp loop; a missing
name fails the C's assert, a partition bigger than its flash slot is a
fatal error), copy the partition data at the running data offset
(starting right after the 0x800-byte table region), and append the
fwup-ptn table line plus the NUL stored by snprintf at the running
table position (the next line overwrites that NUL).  The per-line
overflow check mirrors `w > len - 1`. -/
def putPartitionsWrites (flash : List FlashEntry) :
    List ImgPart → Nat → Nat → Option (List (Nat × List Nat))
  | [], _, _ => some []
  | p :: ps, pos, base =>
    match flash.find? (fun f => f.name = p.name) with
    | none => none
    | some f =>
      if p.data.length > f.size then none
      else
        let line := fwupLine p.name (base % 2 ^ 32) (p.data.length % 2 ^ 32)
        if line.length > 0x7ff - pos then none
        else
          (putPartitionsWrites flash ps (pos + line.length) (base + p.data.length)).map
            (fun ws => (base, p.data) :: (pos, line ++ [0]) :: ws)

/-- generate_factory_image, expressed as the total image length together
with the list of writes performed on the 0xFF-filled buffer, in program
order: the length word (put32 truncates to 32 bits), the optional
vendor block (length word at 0x14, text at 0x18), the put_partitions
writes shifted to the payload table offset 0x1014, and finally the MD5
checksum at offset 0x04, computed by put_md5 over the salt followed by
the buffer contents from offset 0x14 as assembled so far.  The MD5
implementation itself lives in md5.c, outside this repository's core
source; following the spec it is passed as an abstract digest function
producing 16 bytes.  The image bytes are `foldWrites` of the returned
write list. -/
def vendorWrites : Option (List Nat) → List (Nat × List Nat)
  | some v => [(SAFELOADER_PREAMBLE_SIZE, be32 (v.length % 2 ^ 32)),
               (SAFELOADER_PREAMBLE_SIZE + 0x4, v)]
  | none => []

/-- generate_factory_image itself; see the comment above. -/
def generate_factory_image (digest : List Nat → List Nat)
    (vendor : Option (List Nat)) (flash : List FlashEntry) (parts : List ImgPart) :
    Option (Nat × List (Nat × List Nat)) :=
  let len := SAFELOADER_PAYLOAD_OFFSET + SAFELOADER_PAYLOAD_TABLE_SIZE +
    (parts.map (fun p => p.data.length)).sum
  (putPartitionsWrites flash parts 0 SAFELOADER_PAYLOAD_TABLE_SIZE).map (fun pws =>
    let ws := (0, be32 (len % 2 ^ 32)) ::
      (vendorWrites vendor ++
       pws.map (fun w => (SAFELOADER_PAYLOAD_OFFSET + w.1, w.2)))
    let md5 := digest (md5_salt ++
      extract (foldWrites ws) SAFELOADER_PREAMBLE_SIZE (len - SAFELOADER_PREAMBLE_SIZE))
    (len, ws ++ [(0x04, md5)]))

/-- The first loop of generate_sysupgrade_image: scan all flash
partitions, remembering the index of a partition named like the first
sysupgrade partition, else (else-if) of one named like the last. -/
def sysFind (flash : List FlashEntry) (firstName lastName : List Nat) :
    Option Nat × Option Nat :=
  (flash.enum).foldl
    (fun st p =>
      if p.2.name = firstName then (some p.1, st.2)
      else if p.2.name = lastName then (st.1, some p.1) else st)
    (none, none)

/-- The copy loop of generate_sysupgrade_image over the flash partition
indexes `idxs` (first..last inclusive): for each flash partition, the
first image partition of the same name (if any) is copied to offset
`base - first.base` (32-bit unsigned subtraction); content larger than
the flash slot is a fatal error, a flash partition without a built
counterpart is skipped. -/
def sysupgradeWrites (flash : List FlashEntry) (parts : List ImgPart) (fb : Nat) :
    List Nat → Option (List (Nat × List Nat))
  | [] => some []
  | i :: is =>
    let e := flash.getD i ⟨[], 0, 0⟩
    match parts.find? (fun p => p.name = e.name) with
    | none => sysupgradeWrites flash parts fb is
    | some p =>
      if p.data.length > e.size then none
      else (sysupgradeWrites flash parts fb is).map ((wrapSub e.base fb, p.data) :: ·)

/-- generate_sysupgrade_image, expressed as the output length and the
writes on the 0xFF-filled buffer.  The C asserts that both named flash
partitions exist and that the first strictly precedes the last, finds
the built partition named like the last one to size the output, and
runs the copy loop. -/
def generate_sysupgrade_image (info : DeviceInfo) (parts : List ImgPart) :
    Option (Nat × List (Nat × List Nat)) :=
  match sysFind info.partitions info.first_sysupgrade_partition
      info.last_sysupgrade_partition with
  | (some fi, some li) =>
    if fi < li then
      match parts.find? (fun p => p.name = info.last_sysupgrade_partition) with
      | none => none
      | some lastPart =>
        let fb := (info.partitions.getD fi ⟨[], 0, 0⟩).base
        let lb := (info.partitions.getD li ⟨[], 0, 0⟩).base
        let len := wrapSub lb fb + lastPart.data.length
        (sysupgradeWrites info.partitions parts fb
          (List.range' fi (li - fi + 1))).map (len, ·)
    else none
  | _ => none

/-- Index of the last flash partition named "firmware" (the search loop
of build_image keeps overwriting its match). -/
def findFirmwareIdx (ps : List FlashEntry) : Option Nat :=
  ps.enum.foldl (fun st p => if p.2.name = str "firmware" then some p.1 else st) none

/-- The dynamic firmware split of build_image.  When a flash partition
named "firmware" exists, a file-system entry is spliced in right after
it: the firmware entry itself is renamed to the os-image name with size
= kernel size, and the new file-system entry starts at firmware.base +
kernel size (aligned up to a 64 KiB boundary for factory images only)
with size = firmware.size - file_system.base, both fields stored into
uint32_t (32-bit wrap-around applies; note the subtrahend is the
absolute file-system base).  A kernel larger than the firmware
partition is a fatal error.  Returns the updated partition list and the
file-system descriptor handed to read_file (none when there is no
firmware partition). -/
def firmware_split (names : PartNames) (ps : List FlashEntry)
    (kernel_size : Nat) (sysupgrade : Bool) :
    Option (List FlashEntry × Option FlashEntry) :=
  match findFirmwareIdx ps with
  | none => some (ps, none)
  | some i =>
    let fw := ps.getD i ⟨[], 0, 0⟩
    if kernel_size > fw.size then none
    else
      let fsBase := (if sysupgrade then fw.base + kernel_size
                     else align (fw.base + kernel_size) 0x10000) % 2 ^ 32
      let fsEntry : FlashEntry :=
        ⟨names.file_system, fsBase, wrapSub fw.size fsBase⟩
      let osEntry : FlashEntry := ⟨names.os_image, fw.base, kernel_size % 2 ^ 32⟩
      some ((ps.set i osEntry).take (i + 1) ++ fsEntry :: (ps.set i osEntry).drop (i + 1),
            some fsEntry)

/-- build_image: run the firmware split, build the partition list in
order (partition-table, soft-version, support-list, os-image = raw
kernel bytes, file-system = rootfs bytes via read_file, and the
extra-para quirk partition when the device id calls for one), then
assemble with generate_sysupgrade_image or generate_factory_image.  The
result is the output length and write list as in those functions.
File reads are modelled by passing the kernel and rootfs contents as
byte lists. -/
def build_image (digest : List Nat → List Nat) (info : DeviceInfo)
    (kernel rootfs : List Nat) (rev : Nat) (add_jffs2_eof sysupgrade : Bool)
    (source_date_epoch : Option Nat) (now : Nat) :
    Option (Nat × List (Nat × List Nat)) :=
  let names := info.partition_names
  match firmware_split names info.partitions kernel.length sysupgrade with
  | none => none
  | some (partitions, fsPart) =>
    match make_partition_table names.partition_table partitions with
    | none => none
    | some pt =>
      let parts : List ImgPart :=
        [pt, make_soft_version info rev source_date_epoch now,
         make_support_list info,
         ⟨names.os_image, kernel⟩,
         ⟨names.file_system, read_file_fs rootfs add_jffs2_eof fsPart⟩] ++
        (match extraParaFor info.id with
         | some extra => [make_extra_para info extra]
         | none => [])
      let info' := { info with partitions := partitions }
      if sysupgrade then generate_sysupgrade_image info' parts
      else generate_factory_image digest info.vendor partitions parts

/-- Safeloader image type (enum safeloader_image_type). -/
inductive SafeloaderType where
  /-- SAFELOADER_TYPE_DEFAULT. -/
  | DEFAULT : SafeloaderType
  /-- SAFELOADER_TYPE_VENDOR. -/
  | VENDOR : SafeloaderType
  /-- SAFELOADER_TYPE_CLOUD. -/
  | CLOUD : SafeloaderType
  /-- SAFELOADER_TYPE_QNEW. -/
  | QNEW : SafeloaderType
deriving DecidableEq, Repr

/-- safeloader_parse_image: read 64 bytes at the preamble end (fatal if
the file is shorter); classify the image as QNEW when they start with
"?NEW", else CLOUD when they start with "fw-type:Cloud", else VENDOR
when their leading big-endian u32 is at most SAFELOADER_HEADER_SIZE,
else DEFAULT; pick the payload offset accordingly; and decode the image
partition table from the 0x800 bytes at the payload offset (fatal if
the file is shorter; the header-not-found return code is ignored
here). -/
def safeloader_parse_image (image : List Nat) :
    Option (SafeloaderType × Nat × List FlashEntry) :=
  if image.length < SAFELOADER_PREAMBLE_SIZE + 64 then none
  else
    let buf := (image.drop SAFELOADER_PREAMBLE_SIZE).take 64
    let ty : SafeloaderType :=
      if (str "?NEW").isPrefixOf buf then .QNEW
      else if (str "fw-type:Cloud").isPrefixOf buf then .CLOUD
      else if be32val buf ≤ SAFELOADER_HEADER_SIZE then .VENDOR
      else .DEFAULT
    let off := match ty with
      | .QNEW => SAFELOADER_QNEW_PAYLOAD_OFFSET
      | _ => SAFELOADER_PAYLOAD_OFFSET
    if image.length < off + SAFELOADER_PAYLOAD_TABLE_SIZE then none
    else
      match read_partition_table (str "fwup-ptn")
          ((image.drop off).take SAFELOADER_PAYLOAD_TABLE_SIZE) with
      | none => none
      | some (_, entries) => some (ty, off, entries)

/-- The partition lookups of convert_firmware: parse the input image,
find the os-image, file-system and partition-table entries of the image
partition table, decode the flash partition table stored in the
partition-table partition (skipping its 4-byte magic header; a missing
keyword header is fatal here), and find the flash os-image and
file-system entries.  find_partition aborts on a missing name. -/
def convertEntries (image : List Nat) :
    Option (Nat × FlashEntry × FlashEntry × FlashEntry × FlashEntry × FlashEntry) :=
  match safeloader_parse_image image with
  | none => none
  | some (_, off, entries) =>
    match entries.find? (fun e => e.name = str "os-image"),
        entries.find? (fun e => e.name = str "file-system"),
        entries.find? (fun e => e.name = str "partition-table") with
    | some fwup_os, some fwup_fs, some fwup_pt =>
      let flash_table_offset := off + fwup_pt.base + 4
      if image.length < flash_table_offset + SAFELOADER_PAYLOAD_TABLE_SIZE then none
      else
        match read_partition_table (str "partition")
            ((image.drop flash_table_offset).take SAFELOADER_PAYLOAD_TABLE_SIZE) with
        | some (true, flash) =>
          match flash.find? (fun e => e.name = str "os-image"),
              flash.find? (fun e => e.name = str "file-system") with
          | some flash_os, some flash_fs =>
            some (off, fwup_os, fwup_fs, fwup_pt, flash_os, flash_fs)
          | _, _ => none
        | _ => none
    | _, _, _ => none

/-- convert_firmware: write the os-image partition bytes at output
offset 0, pad with 0xFF for `flash_os.size - fwup_os.size` bytes (a
32-bit unsigned subtraction with no capacity validation: when the image
partition is bigger than the flash slot the difference wraps around
2^32), seek to `flash_fs.base - flash_os.base` and write the
file-system partition bytes.  The result is the sequence of
(offset, bytes) writes on the output file.  Reads past the end of the
input are fatal (none). -/
def convert_firmware (image : List Nat) : Option (List (Nat × List Nat)) :=
  match convertEntries image with
  | none => none
  | some (off, fwup_os, fwup_fs, _, flash_os, flash_fs) =>
    if image.length < off + fwup_os.base + fwup_os.size then none
    else if image.length < off + fwup_fs.base + fwup_fs.size then none
    else
      let osBytes := (image.drop (off + fwup_os.base)).take fwup_os.size
      let fsBytes := (image.drop (off + fwup_fs.base)).take fwup_fs.size
      let padLen := wrapSub flash_os.size fwup_os.size
      some [(0, osBytes),
            (fwup_os.size, List.replicate padLen 0xff),
            (wrapSub flash_fs.base flash_os.base, fsBytes)]

/-! Helper lemmas about buffers, byte encodings and the codec. -/

theorem writeBytes_outside (b : Nat → Nat) (off : Nat) (data : List Nat) (i : Nat)
    (h : i < off ∨ off + data.length ≤ i) : writeBytes b off data i = b i := by
  unfold writeBytes
  rw [if_neg]
  omega

theorem writeBytes_inside (b : Nat → Nat) (off : Nat) (data : List Nat) (i : Nat)
    (h1 : off ≤ i) (h2 : i - off < data.length) :
    writeBytes b off data i = data.getD (i - off) 0 := by
  unfold writeBytes
  rw [if_pos ⟨h1, h2⟩]

theorem foldl_writes_outside (ws : List (Nat × List Nat)) (g : Nat → Nat) (i : Nat)
    (h : ∀ w ∈ ws, i < w.1 ∨ w.1 + w.2.length ≤ i) :
    ws.foldl (fun b w => writeBytes b w.1 w.2) g i = g i := by
  induction ws generalizing g with
  | nil => rfl
  | cons w ws ih =>
    rw [List.foldl_cons, ih _ (fun w hw => h w (List.mem_cons_of_mem _ hw)),
      writeBytes_outside _ _ _ _ (h w (List.mem_cons_self _ _))]

theorem foldl_writes_cover (ws₁ ws₂ : List (Nat × List Nat)) (o : Nat) (d : List Nat)
    (g : Nat → Nat) (i : Nat)
    (h : ∀ w ∈ ws₂, i < w.1 ∨ w.1 + w.2.length ≤ i)
    (h1 : o ≤ i) (h2 : i - o < d.length) :
    (ws₁ ++ (o, d) :: ws₂).foldl (fun b w => writeBytes b w.1 w.2) g i =
      d.getD (i - o) 0 := by
  rw [List.foldl_append, List.foldl_cons, foldl_writes_outside _ _ _ h,
    writeBytes_inside _ _ _ _ h1 h2]

theorem extract_length (f : Nat → Nat) (o n : Nat) : (extract f o n).length = n := by
  simp [extract]

theorem extract_getElem (f : Nat → Nat) (o n j : Nat) (h : j < (extract f o n).length) :
    (extract f o n)[j] = f (o + j) := by
  simp [extract]

theorem extract_getD (f : Nat → Nat) (o n j : Nat) (h : j < n) :
    (extract f o n).getD j 0 = f (o + j) := by
  rw [List.getD_eq_getElem _ _ (by rw [extract_length]; exact h), extract_getElem]

theorem extract_eq_iff (f : Nat → Nat) (o : Nat) (d : List Nat) :
    extract f o d.length = d ↔ ∀ j, j < d.length → f (o + j) = d.getD j 0 := by
  constructor
  · intro he j h
    rw [← extract_getD f o d.length j h, he]
  · intro hp
    refine List.ext_getElem (extract_length f o d.length) (fun n h₁ h₂ => ?_)
    rw [extract_getElem, hp n h₂, List.getD_eq_getElem _ _ h₂]

theorem extract_congr (f g : Nat → Nat) (o n : Nat)
    (h : ∀ j, j < n → f (o + j) = g (o + j)) : extract f o n = extract g o n := by
  refine List.ext_getElem (by rw [extract_length, extract_length]) (fun j h₁ h₂ => ?_)
  rw [extract_getElem, extract_getElem, h j (by simpa [extract_length] using h₁)]

theorem be32_length (v : Nat) : (be32 v).length = 4 := rfl

theorem be32val_be32 (v : Nat) (h : v < 2 ^ 32) : be32val (be32 v) = v := by
  have e : be32val (be32 v) =
      v / 2 ^ 24 % 256 * 2 ^ 24 + v / 2 ^ 16 % 256 * 2 ^ 16 +
        v / 2 ^ 8 % 256 * 2 ^ 8 + v % 256 := rfl
  rw [e]
  omega

theorem wrapSub_eq_sub (a b : Nat) (ha : a < 2 ^ 32) (hb : b ≤ a) :
    wrapSub a b = a - b := by
  unfold wrapSub
  rw [Nat.mod_eq_of_lt ha, Nat.mod_eq_of_lt (show b < 2 ^ 32 by omega),
    show a + (2 ^ 32 - b) = (a - b) + 1 * 2 ^ 32 by omega,
    Nat.add_mul_mod_self_right, Nat.mod_eq_of_lt (by omega)]

theorem hexDigit_range (d : Nat) (h : d < 16) :
    (0x30 ≤ hexDigit d ∧ hexDigit d ≤ 0x39) ∨ (0x61 ≤ hexDigit d ∧ hexDigit d ≤ 0x66) := by
  unfold hexDigit
  split <;> omega

theorem natHexAux_mem_range (fuel n b : Nat) (hf : n ≤ fuel) (h : b ∈ natHexAux fuel n) :
    (0x30 ≤ b ∧ b ≤ 0x39) ∨ (0x61 ≤ b ∧ b ≤ 0x66) := by
  induction fuel generalizing n with
  | zero =>
    rw [natHexAux] at h
    rcases List.mem_singleton.mp h with rfl
    exact hexDigit_range n (by omega)
  | succ fuel ih =>
    rw [natHexAux] at h
    by_cases hn : n < 16
    · rw [if_pos hn] at h
      rcases List.mem_singleton.mp h with rfl
      exact hexDigit_range n hn
    · rw [if_neg hn] at h
      rcases List.mem_append.mp h with h1 | h1
      · exact ih (n / 16) (by
          have := Nat.div_lt_self (show 0 < n by omega) (show 1 < 16 by omega)
          omega) h1
      · rcases List.mem_singleton.mp h1 with rfl
        exact hexDigit_range _ (Nat.mod_lt _ (by omega))

theorem natHex_mem_range (n b : Nat) (h : b ∈ natHex n) :
    (0x30 ≤ b ∧ b ≤ 0x39) ∨ (0x61 ≤ b ∧ b ≤ 0x66) :=
  natHexAux_mem_range n n b (Nat.le_refl n) h

theorem hex5_mem_range (n b : Nat) (h : b ∈ hex5 n) :
    (0x30 ≤ b ∧ b ≤ 0x39) ∨ (0x61 ≤ b ∧ b ≤ 0x66) := by
  unfold hex5 at h
  rcases List.mem_append.mp h with h1 | h1
  · rcases List.eq_of_mem_replicate h1 with rfl
    omega
  · exact natHex_mem_range n b h1

theorem hex5_isHexDigit (n b : Nat) (h : b ∈ hex5 n) : isHexDigitB b = true := by
  have := hex5_mem_range n b h
  simp only [isHexDigitB, decide_eq_true_eq]
  omega

theorem hex5_length_ge (n : Nat) : 5 ≤ (hex5 n).length := by
  unfold hex5
  rw [List.length_append, List.length_replicate]
  omega

theorem hexVal_hexDigit (d : Nat) (h : d < 16) : hexVal (hexDigit d) = d := by
  unfold hexVal hexDigit
  by_cases h1 : d < 10
  · rw [if_pos h1, if_pos (by omega)]
    omega
  · rw [if_neg h1, if_neg (by omega), if_neg (by omega)]
    omega

theorem parseHexAcc_append_digits (ds t : List Nat) (acc : Nat)
    (h : ∀ b ∈ ds, isHexDigitB b = true) :
    parseHexAcc (ds ++ t) acc =
      parseHexAcc t (ds.foldl (fun a b => 16 * a + hexVal b) acc) := by
  induction ds generalizing acc with
  | nil => rfl
  | cons b ds ih =>
    rw [List.cons_append, parseHexAcc, if_pos (h b (List.mem_cons_self _ _)),
      ih _ (fun x hx => h x (List.mem_cons_of_mem _ hx)), List.foldl_cons]

theorem parseHexAcc_stop (t : List Nat) (acc : Nat)
    (h : ∀ b, t.head? = some b → isHexDigitB b = false) : parseHexAcc t acc = acc := by
  cases t with
  | nil => rfl
  | cons b r => rw [parseHexAcc, if_neg (by simp [h b rfl])]

theorem foldl_natHexAux (fuel n acc : Nat) (hf : n ≤ fuel) :
    (natHexAux fuel n).foldl (fun a b => 16 * a + hexVal b) acc =
      acc * 16 ^ (natHexAux fuel n).length + n := by
  induction fuel generalizing n acc with
  | zero =>
    rw [natHexAux]
    simp [List.foldl_cons, hexVal_hexDigit n (by omega)]
    omega
  | succ fuel ih =>
    rw [natHexAux]
    by_cases hn : n < 16
    · rw [if_pos hn]
      simp [List.foldl_cons, hexVal_hexDigit n hn]
      omega
    · rw [if_neg hn, List.foldl_append,
        ih (n / 16) acc (by
          have := Nat.div_lt_self (show 0 < n by omega) (show 1 < 16 by omega)
          omega)]
      simp only [List.foldl_cons, List.foldl_nil, List.length_append,
        List.length_singleton, hexVal_hexDigit _ (Nat.mod_lt _ (show 0 < 16 by omega))]
      rw [pow_succ]
      have : 16 * (n / 16) + n % 16 = n := Nat.div_add_mod n 16
      ring_nf
      omega

theorem foldl_natHex (n acc : Nat) :
    (natHex n).foldl (fun a b => 16 * a + hexVal b) acc =
      acc * 16 ^ (natHex n).length + n :=
  foldl_natHexAux n n acc (Nat.le_refl n)

theorem foldl_hex5 (n acc : Nat) :
    (hex5 n).foldl (fun a b => 16 * a + hexVal b) acc =
      acc * 16 ^ (hex5 n).length + n := by
  unfold hex5
  rw [List.foldl_append]
  have hz : (List.replicate (5 - (natHex n).length) 0x30).foldl
      (fun a b => 16 * a + hexVal b) acc = acc * 16 ^ (5 - (natHex n).length) := by
    generalize 5 - (natHex n).length = k
    induction k generalizing acc with
    | zero => simp
    | succ k ihk =>
      rw [List.replicate_succ, List.foldl_cons, ihk]
      have : hexVal 0x30 = 0 := rfl
      rw [this, pow_succ]
      ring
  rw [hz, foldl_natHex, List.length_append, List.length_replicate, pow_add]
  ring

theorem strtoul16_hex5 (v : Nat) (t : List Nat)
    (h : ∀ b, t.head? = some b → isHexDigitB b = false) :
    strtoul16 (0x30 :: 0x78 :: (hex5 v ++ t)) = v := by
  have hds : (List.dropWhile isSpaceB (0x30 :: 0x78 :: (hex5 v ++ t))) =
      0x30 :: 0x78 :: (hex5 v ++ t) := by
    rw [List.dropWhile_cons_of_neg (by simp [isSpaceB])]
  rw [strtoul16, hds]
  show strtoul16.strtoul16body (0x30 :: 0x78 :: (hex5 v ++ t)) = v
  rw [strtoul16.strtoul16body, parseHexAcc_append_digits _ _ _ (hex5_isHexDigit v),
    parseHexAcc_stop _ _ h, foldl_hex5]
  simp

theorem firstIdx_cons_self (b : Nat) (l : List Nat) : firstIdx (b :: l) b = some 0 := by
  rw [firstIdx, if_pos rfl]

theorem firstIdx_append_not_mem (l₁ l₂ : List Nat) (b : Nat) (h : b ∉ l₁) :
    firstIdx (l₁ ++ l₂) b = (firstIdx l₂ b).map (· + l₁.length) := by
  induction l₁ with
  | nil => simp
  | cons x xs ih =>
    rw [List.cons_append, firstIdx, if_neg (by rintro rfl; exact h (List.mem_cons_self _ _)),
      ih (fun hx => h (List.mem_cons_of_mem _ hx))]
    cases firstIdx l₂ b with
    | none => simp
    | some k => simp; omega

theorem firstIdx_concat (l₁ l₂ : List Nat) (b : Nat) (h : b ∉ l₁) :
    firstIdx (l₁ ++ b :: l₂) b = some l₁.length := by
  rw [firstIdx_append_not_mem _ _ _ h, firstIdx_cons_self]
  simp

theorem firstIdx_take (l : List Nat) (b k n : Nat) (h : firstIdx l b = some k)
    (hk : k < n) : firstIdx (l.take n) b = some k := by
  induction l generalizing k n with
  | nil => simp [firstIdx] at h
  | cons x xs ih =>
    rw [firstIdx] at h
    cases n with
    | zero => omega
    | succ n =>
      rw [List.take_succ_cons, firstIdx]
      by_cases hx : x = b
      · rw [if_pos hx] at h ⊢
        exact h
      · rw [if_neg hx] at h ⊢
        cases hf : firstIdx xs b with
        | none => rw [hf, Option.map_none'] at h; cases h
        | some k' =>
          rw [hf, Option.map_some'] at h
          injection h with h
          rw [ih k' n (by rw [hf]) (by omega), Option.map_some']
          exact congrArg some h

theorem memchr_found (buf : List Nat) (o stop b : Nat) (pre suf : List Nat)
    (hdrop : buf.drop o = pre ++ b :: suf) (hpre : b ∉ pre)
    (hstop : o + pre.length < stop) :
    memchr buf o stop b = some (o + pre.length) := by
  rw [memchr, hdrop, firstIdx_take _ _ _ _ (firstIdx_concat _ _ _ hpre) (by omega)]
  simp

theorem isPrefixOf_append_self (l r : List Nat) : l.isPrefixOf (l ++ r) = true := by
  induction l with
  | nil => simp [List.isPrefixOf]
  | cons x xs ih => simp [List.isPrefixOf, ih]

theorem takeWhile_ne_zero (l : List Nat) (h : ∀ b ∈ l, b ≠ 0) :
    l.takeWhile (fun b => decide (b ≠ 0)) = l :=
  List.takeWhile_eq_self_iff.mpr (fun x hx => by simpa using h x hx)

theorem drop_len_append (l r : List Nat) (n : Nat) (h : n = l.length) :
    (l ++ r).drop n = r := by
  rw [h, List.drop_left]

theorem drop_more_append (l r : List Nat) (n : Nat) (h : l.length ≤ n) :
    (l ++ r).drop n = r.drop (n - l.length) := by
  have h2 : (l ++ r).drop (l.length + (n - l.length)) = r.drop (n - l.length) := by
    rw [← List.drop_drop, List.drop_left]
  rw [← h2]
  congr 1
  omega

theorem drop_through (l : List Nat) (x : Nat) (r : List Nat) (n : Nat)
    (h : n = l.length + 1) : (l ++ x :: r).drop n = r := by
  rw [drop_more_append _ _ _ (by omega), show n - l.length = 1 by omega]
  rfl

theorem drop_chain (l : List Nat) (o o' : Nat) (X : List Nat) (h : l.drop o = X)
    (hle : o ≤ o') : l.drop o' = X.drop (o' - o) := by
  rw [← h, List.drop_drop]
  congr 1
  omega

theorem hex5_not_special (v a : Nat) (h : a ∈ hex5 v) :
    a ≠ 0x0a ∧ a ≠ 0x20 ∧ a ≠ 0x09 ∧ a ≠ 0x0d ∧ a ≠ 0 := by
  have := hex5_mem_range v a h
  omega

theorem parseEntry_line (nm : List Nat) (b s : Nat) (t : List Nat)
    (hlen : nm.length ≤ 31) (hsp : 0x20 ∉ nm) (hlf : 0x0a ∉ nm) (hz : 0 ∉ nm) :
    parseEntry (fwupLine nm b s ++ t) =
      .entry nm b s (27 + nm.length + (hex5 b).length + (hex5 s).length) := by
  have hb5 := hex5_length_ge b
  have hs5 := hex5_length_ge s
  set n := nm.length with hn
  set hb := (hex5 b).length with hhb
  set hs := (hex5 s).length with hhs
  set np := 27 + n + hb + hs with hnp_def
  set S4 : List Nat :=
    str "size" ++ 0x20 :: (0x30 :: 0x78 :: (hex5 s ++ 0x09 :: 0x0d :: 0x0a :: t))
    with hS4
  set S2 : List Nat :=
    str "base" ++ 0x20 :: (0x30 :: 0x78 :: (hex5 b ++ 0x20 :: S4)) with hS2
  set rest := fwupLine nm b s ++ t with hrest
  have e1 : str "fwup-ptn " = str "fwup-ptn" ++ [0x20] := by decide
  have e2 : str " base 0x" = 0x20 :: (str "base" ++ 0x20 :: [0x30, 0x78]) := by decide
  have e3 : str " size 0x" = 0x20 :: (str "size" ++ 0x20 :: [0x30, 0x78]) := by decide
  have hcan : rest = str "fwup-ptn" ++ 0x20 :: (nm ++ 0x20 :: S2) := by
    rw [hrest]
    unfold fwupLine
    rw [e1, e2, e3, hS2, hS4]
    simp [List.append_assoc]
  -- drop positions
  have d9 : rest.drop 9 = nm ++ 0x20 :: S2 := by
    rw [hcan]
    exact drop_through _ _ _ _ (by decide)
  have d10 : rest.drop (10 + n) = S2 := by
    rw [drop_chain rest 9 (10 + n) _ d9 (by omega)]
    exact drop_through _ _ _ _ (by omega)
  have d15 : rest.drop (15 + n) = 0x30 :: 0x78 :: (hex5 b ++ 0x20 :: S4) := by
    rw [drop_chain rest (10 + n) (15 + n) _ d10 (by omega), hS2,
      show 15 + n - (10 + n) = 5 by omega]
    rw [drop_through _ _ _ _ (by decide)]
  have d17 : rest.drop (17 + n) = hex5 b ++ 0x20 :: S4 := by
    rw [drop_chain rest (15 + n) (17 + n) _ d15 (by omega),
      show 17 + n - (15 + n) = 2 by omega]
    rfl
  have d18 : rest.drop (18 + n + hb) = S4 := by
    rw [drop_chain rest (17 + n) (18 + n + hb) _ d17 (by omega)]
    exact drop_through _ _ _ _ (by omega)
  have d23 : rest.drop (23 + n + hb) =
      0x30 :: 0x78 :: (hex5 s ++ 0x09 :: 0x0d :: 0x0a :: t) := by
    rw [drop_chain rest (18 + n + hb) (23 + n + hb) _ d18 (by omega), hS4,
      show 23 + n + hb - (18 + n + hb) = 5 by omega]
    rw [drop_through _ _ _ _ (by decide)]
  -- the line terminator
  set P : List Nat := str "fwup-ptn" ++ [0x20] ++ nm ++ [0x20] ++ str "base" ++
      [0x20] ++ [0x30, 0x78] ++ hex5 b ++ [0x20] ++ str "size" ++ [0x20] ++
      [0x30, 0x78] ++ hex5 s ++ [0x09, 0x0d] with hP
  have hrest_nl : rest = P ++ 0x0a :: t := by
    rw [hcan, hS2, hS4, hP]
    simp [List.append_assoc]
  have hnl_len : P.length = np := by
    rw [hP]
    simp only [List.length_append, hnp_def,
      show (str "fwup-ptn").length = 8 by decide, show (str "base").length = 4 by decide,
      show (str "size").length = 4 by decide,
      show ([0x09, 0x0d] : List Nat).length = 2 by decide,
      show ([0x30, 0x78] : List Nat).length = 2 by decide,
      show ([0x20] : List Nat).length = 1 by decide]
    omega
  have hnl_mem : (0x0a : Nat) ∉ P := by
    rw [hP]
    intro hmem
    simp only [List.mem_append] at hmem
    rcases hmem with ((((((((((((h | h) | h) | h) | h) | h) | h) | h) | h) | h) | h) | h) |
        h) | h
    · exact absurd h (by decide)
    · exact absurd h (by decide)
    · exact hlf h
    · exact absurd h (by decide)
    · exact absurd h (by decide)
    · exact absurd h (by decide)
    · exact absurd h (by decide)
    · exact (hex5_not_special b _ h).1 rfl
    · exact absurd h (by decide)
    · exact absurd h (by decide)
    · exact absurd h (by decide)
    · exact absurd h (by decide)
    · exact (hex5_not_special s _ h).1 rfl
    · exact absurd h (by decide)
  have hrl : rest.length = np + (0x0a :: t).length := by
    rw [hrest_nl, List.length_append, hnl_len]
  have hnp : memchr rest 0 rest.length 0x0a = some np := by
    have := memchr_found rest 0 rest.length 0x0a _ _
      (by rw [List.drop_zero]; exact hrest_nl) hnl_mem
      (by rw [hnl_len, hrl]; simp [List.length_cons])
    rw [this, hnl_len, Nat.zero_add]
  -- the five field separators
  have he0 : memchr rest 0 np 0x20 = some 8 := by
    have := memchr_found rest 0 np 0x20 (str "fwup-ptn") (nm ++ 0x20 :: S2)
      (by rw [List.drop_zero]; exact hcan) (by decide)
      (by rw [show (str "fwup-ptn").length = 8 by decide]; omega)
    rw [this, show (str "fwup-ptn").length = 8 by decide]
  have he1 : memchr rest 9 np 0x20 = some (9 + n) := by
    exact memchr_found rest 9 np 0x20 nm S2 d9 hsp (by omega)
  have he2 : memchr rest (10 + n) np 0x20 = some (14 + n) := by
    have := memchr_found rest (10 + n) np 0x20 (str "base")
      (0x30 :: 0x78 :: (hex5 b ++ 0x20 :: S4)) (by rw [d10, hS2]) (by decide)
      (by rw [show (str "base").length = 4 by decide]; omega)
    rw [this, show (str "base").length = 4 by decide, show 10 + n + 4 = 14 + n by omega]
  have he3 : memchr rest (15 + n) np 0x20 = some (17 + n + hb) := by
    have := memchr_found rest (15 + n) np 0x20 (0x30 :: 0x78 :: hex5 b) S4
      (by rw [d15]; simp) (by
        intro hm
        rcases List.mem_cons.mp hm with h | hm
        · omega
        rcases List.mem_cons.mp hm with h | hm
        · omega
        · exact (hex5_not_special b _ hm).2.1 rfl)
      (by simp only [List.length_cons]; omega)
    have hpl : (0x30 :: 0x78 :: hex5 b).length = 2 + hb := by
      simp only [List.length_cons]
      omega
    rw [hpl, show 15 + n + (2 + hb) = 17 + n + hb by omega] at this
    exact this
  have he4 : memchr rest (18 + n + hb) np 0x20 = some (22 + n + hb) := by
    have := memchr_found rest (18 + n + hb) np 0x20 (str "size")
      (0x30 :: 0x78 :: (hex5 s ++ 0x09 :: 0x0d :: 0x0a :: t)) (by rw [d18, hS4])
      (by decide) (by rw [show (str "size").length = 4 by decide]; omega)
    rw [this, show (str "size").length = 4 by decide,
      show 18 + n + hb + 4 = 22 + n + hb by omega]
  -- the two numeric fields
  have hbase : strtoul16 (rest.drop (15 + n)) = b := by
    rw [d15]
    exact strtoul16_hex5 b (0x20 :: S4) (by intro b' h; injection h with h; subst h; decide)
  have hsize : strtoul16 (rest.drop (23 + n + hb)) = s := by
    rw [d23]
    exact strtoul16_hex5 s (0x09 :: 0x0d :: 0x0a :: t)
      (by intro b' h; injection h with h; subst h; decide)
  -- the name field
  have hname : ((rest.drop 9).take (min 31 (9 + n - 9))).takeWhile (· ≠ 0) = nm := by
    rw [d9, show 9 + n - 9 = nm.length by omega, Nat.min_eq_right hlen, List.take_left,
      takeWhile_ne_zero nm (fun b hb0 => by rintro rfl; exact hz hb0)]
  unfold parseEntry
  rw [hnp]
  dsimp only
  rw [if_neg (show ¬np ≤ 0 by omega), he0]
  dsimp only
  rw [show (8 : Nat) + 1 = 9 from rfl, if_neg (show ¬np ≤ 9 by omega), he1]
  dsimp only
  rw [hname, show 9 + n + 1 = 10 + n by omega, if_neg (show ¬np ≤ 10 + n by omega), he2]
  dsimp only
  rw [show 14 + n + 1 = 15 + n by omega, if_neg (show ¬np ≤ 15 + n by omega), hbase, he3]
  dsimp only
  rw [show 17 + n + hb + 1 = 18 + n + hb by omega,
    if_neg (show ¬np ≤ 18 + n + hb by omega), he4]
  dsimp only
  rw [show 22 + n + hb + 1 = 23 + n + hb by omega, hsize]

theorem fwupLine_length (nm : List Nat) (b s : Nat) :
    (fwupLine nm b s).length = 28 + nm.length + (hex5 b).length + (hex5 s).length := by
  unfold fwupLine
  simp only [List.length_append, show (str "fwup-ptn ").length = 9 by decide,
    show (str " base 0x").length = 8 by decide, show (str " size 0x").length = 8 by decide,
    show ([0x09, 0x0d, 0x0a] : List Nat).length = 3 by decide]
  omega

theorem fwup_hdr_starts (nm : List Nat) (b s : Nat) (X : List Nat) :
    (str "fwup-ptn").isPrefixOf (fwupLine nm b s ++ X) = true := by
  have h : fwupLine nm b s ++ X = str "fwup-ptn" ++
      ([0x20] ++ (nm ++ (str " base 0x" ++ (hex5 b ++ (str " size 0x" ++
        (hex5 s ++ ([0x09, 0x0d, 0x0a] ++ X))))))) := by
    unfold fwupLine
    rw [show str "fwup-ptn " = str "fwup-ptn" ++ [0x20] by decide]
    simp [List.append_assoc]
  rw [h]
  exact isPrefixOf_append_self _ _

theorem readLoop_fwup_stop (fuel : Nat) (junk : List Nat) (acc : List FlashEntry) :
    readLoop (str "fwup-ptn") fuel (0 :: junk) acc = some acc := by
  cases fuel with
  | zero => rfl
  | succ fuel =>
    rw [readLoop, if_neg]
    intro hcond
    have h2 := hcond.2
    rw [show str "fwup-ptn" = 0x66 :: str "wup-ptn" by decide] at h2
    simp [List.isPrefixOf] at h2

theorem readLoop_fwupLines (ts : List (List Nat × Nat × Nat)) (fuel : Nat)
    (acc : List FlashEntry) (junk : List Nat)
    (hval : ∀ e ∈ ts, e.1.length ≤ 31 ∧ 0x20 ∉ e.1 ∧ 0x0a ∉ e.1 ∧ 0 ∉ e.1 ∧
      e.2.1 < 2 ^ 32 ∧ e.2.2 < 2 ^ 32)
    (hcount : acc.length + ts.length ≤ 32) (hfuel : ts.length < fuel) :
    readLoop (str "fwup-ptn") fuel (fwupLines ts ++ 0 :: junk) acc =
      some (acc ++ ts.map (fun e => (⟨e.1, e.2.1, e.2.2⟩ : FlashEntry))) := by
  induction ts generalizing acc fuel with
  | nil => simpa using readLoop_fwup_stop fuel junk acc
  | cons e ts ih =>
    obtain ⟨fuel, rfl⟩ : ∃ f, fuel = f + 1 := by
      cases fuel with
      | zero => omega
      | succ f => exact ⟨f, rfl⟩
    obtain ⟨nm, b, s⟩ := e
    obtain ⟨hlen, hsp, hlf, hz, hblt, hslt⟩ := hval _ (List.mem_cons_self _ _)
    have hmb : b % 2 ^ 32 = b := Nat.mod_eq_of_lt hblt
    have hms : s % 2 ^ 32 = s := Nat.mod_eq_of_lt hslt
    have hshape : fwupLines ((nm, b, s) :: ts) ++ 0 :: junk =
        fwupLine nm b s ++ (fwupLines ts ++ 0 :: junk) := by
      show fwupLine nm (b % 2 ^ 32) (s % 2 ^ 32) ++ fwupLines ts ++ 0 :: junk = _
      rw [hmb, hms, List.append_assoc]
    rw [hshape, readLoop, if_pos]
    · rw [parseEntry_line nm b s _ hlen hsp hlf hz]
      dsimp only
      rw [if_neg (show ¬(acc.length ≥ MAX_PARTITIONS) by
        simp only [List.length_cons] at hcount
        unfold MAX_PARTITIONS
        omega)]
      have hdrop : (fwupLine nm b s ++ (fwupLines ts ++ 0 :: junk)).drop
          (27 + nm.length + (hex5 b).length + (hex5 s).length + 1) =
          fwupLines ts ++ 0 :: junk := by
        apply drop_len_append
        rw [fwupLine_length]
        omega
      rw [hdrop, hmb, hms,
        ih fuel (acc ++ [({ name := nm, base := b, size := s } : FlashEntry)])
          (fun x hx => hval x (List.mem_cons_of_mem _ hx))
          (by simp only [List.length_append, List.length_cons, List.length_nil] at *
              omega)
          (by simp only [List.length_cons] at hfuel; omega)]
      simp
    · constructor
      · rw [List.length_append, fwupLine_length,
          show (str "fwup-ptn").length = 8 by decide]
        omega
      · exact fwup_hdr_starts nm b s _

theorem fwupLinesChecked_eq (ts : List (List Nat × Nat × Nat)) (pos : Nat)
    (ls : List Nat) (h : fwupLinesChecked ts pos = some ls) : ls = fwupLines ts := by
  induction ts generalizing pos ls with
  | nil =>
    rw [fwupLinesChecked] at h
    injection h with h
    rw [← h]
    rfl
  | cons e ts ih =>
    obtain ⟨nm, b, s⟩ := e
    rw [fwupLinesChecked] at h
    by_cases hov : (fwupLine nm (b % 2 ^ 32) (s % 2 ^ 32)).length > 0x7ff - pos
    · rw [if_pos hov] at h
      cases h
    · rw [if_neg hov] at h
      cases hrec : fwupLinesChecked ts (pos + (fwupLine nm (b % 2 ^ 32) (s % 2 ^ 32)).length) with
      | none => rw [hrec, Option.map_none'] at h; cases h
      | some ls' =>
        rw [hrec, Option.map_some'] at h
        injection h with h
        rw [← h, ih _ _ hrec]
        rfl

theorem fwupLinesChecked_le (ts : List (List Nat × Nat × Nat)) (pos : Nat)
    (ls : List Nat) (h : fwupLinesChecked ts pos = some ls) :
    pos + ls.length ≤ 0x7ff ∨ ls = [] := by
  induction ts generalizing pos ls with
  | nil =>
    rw [fwupLinesChecked] at h
    injection h with h
    right
    exact h.symm
  | cons e ts ih =>
    obtain ⟨nm, b, s⟩ := e
    rw [fwupLinesChecked] at h
    by_cases hov : (fwupLine nm (b % 2 ^ 32) (s % 2 ^ 32)).length > 0x7ff - pos
    · rw [if_pos hov] at h
      cases h
    · rw [if_neg hov] at h
      cases hrec : fwupLinesChecked ts
          (pos + (fwupLine nm (b % 2 ^ 32) (s % 2 ^ 32)).length) with
      | none => rw [hrec, Option.map_none'] at h; cases h
      | some ls' =>
        rw [hrec, Option.map_some'] at h
        injection h with h
        have hlb := fwupLine_length nm (b % 2 ^ 32) (s % 2 ^ 32)
        have hb5 := hex5_length_ge (b % 2 ^ 32)
        have hs5 := hex5_length_ge (s % 2 ^ 32)
        left
        rw [← h, List.length_append]
        rcases ih _ _ hrec with h2 | h2
        · omega
        · rw [h2]
          simp only [List.length_nil]
          omega

theorem set_append_right (l r : List Nat) (n x : Nat) (h : l.length ≤ n) :
    (l ++ r).set n x = l ++ r.set (n - l.length) x := by
  induction l generalizing n with
  | nil => simp
  | cons a l ih =>
    cases n with
    | zero => simp at h
    | succ n =>
      simp only [List.cons_append, List.set_cons_succ, List.length_cons]
      rw [ih n (by simpa using h), Nat.succ_sub_succ]

theorem fwupLines_cons_shape (nm : List Nat) (b s : Nat) (ts : List (List Nat × Nat × Nat))
    (X : List Nat) :
    fwupLines ((nm, b, s) :: ts) ++ X =
      fwupLine nm (b % 2 ^ 32) (s % 2 ^ 32) ++ (fwupLines ts ++ X) := by
  show fwupLine nm (b % 2 ^ 32) (s % 2 ^ 32) ++ fwupLines ts ++ X = _
  rw [List.append_assoc]

theorem fwup_table_roundtrip_aux (ts : List (List Nat × Nat × Nat))
    (hval : ∀ e ∈ ts, e.1.length ≤ 31 ∧ 0x20 ∉ e.1 ∧ 0x0a ∉ e.1 ∧ 0 ∉ e.1 ∧
      e.2.1 < 2 ^ 32 ∧ e.2.2 < 2 ^ 32)
    (hcount : ts.length ≤ 32) (tbl : List Nat)
    (henc : encodeFwupTable ts = some tbl) :
    (read_partition_table (str "fwup-ptn") tbl).map (fun r => r.2) =
      some (ts.map (fun e => (⟨e.1, e.2.1, e.2.2⟩ : FlashEntry))) := by
  unfold encodeFwupTable at henc
  cases hlc : fwupLinesChecked ts 0 with
  | none => rw [hlc, Option.map_none'] at henc; cases henc
  | some ls =>
    rw [hlc, Option.map_some'] at henc
    injection henc with henc
    have hls := fwupLinesChecked_eq ts 0 ls hlc
    cases ts with
    | nil =>
      have hle : ls = [] := by rw [hls]; rfl
      rw [hle] at henc
      rw [← henc]
      show (read_partition_table (str "fwup-ptn") (List.replicate 0x800 0xff)).map
        (fun r => r.2) = some []
      have hset : (List.replicate 0x800 0xff).set (SAFELOADER_PAYLOAD_TABLE_SIZE - 1) 0 =
          0xff :: ((List.replicate 0x7ff 0xff).set 0x7fe 0) := by
        rw [show (0x800 : Nat) = 0x7ff + 1 from rfl, List.replicate_succ,
          show SAFELOADER_PAYLOAD_TABLE_SIZE - 1 = 0x7fe + 1 from rfl, List.set_cons_succ]
      unfold read_partition_table
      rw [if_neg]
      · rfl
      · intro hcond
        rw [hset, show str "fwup-ptn" = 0x66 :: str "wup-ptn" by decide] at hcond
        simp [List.isPrefixOf] at hcond
    | cons e ts' =>
      obtain ⟨nm, b, s⟩ := e
      have hlsne : ls.isEmpty = false := by
        rw [hls, List.isEmpty_eq_false_iff_exists_mem]
        refine ⟨0x66, ?_⟩
        rw [show fwupLines ((nm, b, s) :: ts') =
          fwupLine nm (b % 2 ^ 32) (s % 2 ^ 32) ++ fwupLines ts' from rfl]
        apply List.mem_append.mpr
        left
        unfold fwupLine
        rw [show str "fwup-ptn " = 0x66 :: str "wup-ptn " by decide]
        simp
      rw [hlsne] at henc
      simp only [Bool.false_eq_true, if_false] at henc
      have hlen : ls.length ≤ 0x7ff := by
        rcases fwupLinesChecked_le _ 0 ls hlc with h | h
        · omega
        · rw [h] at hlsne
          simp at hlsne
      -- the forced NUL at offset 0x7ff lands in the padding (or on the
      -- final NUL itself), so the parsed prefix is unchanged
      obtain ⟨junk, hjunk⟩ : ∃ junk,
          tbl.set (SAFELOADER_PAYLOAD_TABLE_SIZE - 1) 0 = ls ++ 0 :: junk := by
        cases hd : 2047 - ls.length with
        | zero =>
          refine ⟨List.replicate (2047 - ls.length) 0xff, ?_⟩
          rw [← henc, show SAFELOADER_PAYLOAD_TABLE_SIZE - 1 = 2047 from rfl,
            set_append_right _ _ _ _ (by omega), hd, List.set_cons_zero]
        | succ k =>
          refine ⟨(List.replicate (2047 - ls.length) 0xff).set k 0, ?_⟩
          rw [← henc, show SAFELOADER_PAYLOAD_TABLE_SIZE - 1 = 2047 from rfl,
            set_append_right _ _ _ _ (by omega), hd, List.set_cons_succ]
      unfold read_partition_table
      rw [hjunk, hls, show fwupLines ((nm, b, s) :: ts') ++ 0 :: junk =
          fwupLine nm (b % 2 ^ 32) (s % 2 ^ 32) ++ (fwupLines ts' ++ 0 :: junk) from
          fwupLines_cons_shape nm b s ts' (0 :: junk),
        if_pos (fwup_hdr_starts nm (b % 2 ^ 32) (s % 2 ^ 32) _),
        ← fwupLines_cons_shape nm b s ts' (0 :: junk)]
      have htlen : (fwupLines ((nm, b, s) :: ts') ++ 0 :: junk).length = 2048 := by
        rw [← hls, ← hjunk, List.length_set, ← henc]
        simp only [List.length_append, List.length_cons, List.length_replicate]
        omega
      rw [readLoop_fwupLines _ _ [] junk hval (by simpa using hcount)
        (by rw [htlen]
            simp only [List.length_cons] at hcount ⊢
            omega)]
      simp

/-- C6 (amended): for partition triples whose names are at most 31 bytes
and contain no space, newline or NUL byte, whose bases and sizes fit in
32 bits, numbering at most MAX_PARTITIONS, and whose encoded table fits
the fixed region (the encoder accepts them), decoding the encoded
image-form partition table yields exactly the original
(name, base, size) sequence, in order. -/
theorem C6_fwup_table_roundtrip (ts : List (List Nat × Nat × Nat))
    (hval : ∀ e ∈ ts, e.1.length ≤ 31 ∧ 0x20 ∉ e.1 ∧ 0x0a ∉ e.1 ∧ 0 ∉ e.1 ∧
      e.2.1 < 2 ^ 32 ∧ e.2.2 < 2 ^ 32)
    (hcount : ts.length ≤ 32)
    (hacc : (fwupLinesChecked ts 0).isSome = true) :
    (encodeFwupTable ts).bind
      (fun tbl => (read_partition_table (str "fwup-ptn") tbl).map (fun r => r.2)) =
      some (ts.map (fun e => (⟨e.1, e.2.1, e.2.2⟩ : FlashEntry))) := by
  cases hlc : fwupLinesChecked ts 0 with
  | none => rw [hlc] at hacc; cases hacc
  | some ls =>
    have henc : encodeFwupTable ts = some (if ls.isEmpty then List.replicate 0x800 0xff
        else ls ++ 0 :: List.replicate (0x7ff - ls.length) 0xff) := by
      unfold encodeFwupTable
      rw [hlc, Option.map_some']
    rw [henc, Option.some_bind]
    exact fwup_table_roundtrip_aux ts hval hcount _ henc

/-- C6 (counterexample to the claim as stated): the name "a\nb" has at
most 31 bytes and no spaces and its one-line table fits the fixed
region, so the encoder accepts it; but the decoder's line scan takes
the newline inside the name for the line terminator, finds no field
separator before it, and aborts fatally instead of returning the
original entry. -/
theorem C6_counterexample :
    ((([0x61, 0x0a, 0x62] : List Nat).length ≤ 31 ∧ (0x20 : Nat) ∉ [0x61, 0x0a, 0x62]) ∧
      (fwupLinesChecked [([0x61, 0x0a, 0x62], 0x800, 0x1)] 0).isSome = true) ∧
    ¬((encodeFwupTable [([0x61, 0x0a, 0x62], 0x800, 0x1)]).bind
        (fun tbl => (read_partition_table (str "fwup-ptn") tbl).map (fun r => r.2)) =
      some [⟨[0x61, 0x0a, 0x62], 0x800, 0x1⟩]) := by
  refine ⟨⟨⟨by decide, by decide⟩, by decide⟩, ?_⟩
  set L : List Nat := [102, 119, 117, 112, 45, 112, 116, 110, 32, 97, 10, 98, 32, 98,
    97, 115, 101, 32, 48, 120, 48, 48, 56, 48, 48, 32, 115, 105, 122, 101, 32, 48,
    120, 48, 48, 48, 48, 49, 9, 13, 10] with hL
  have hlc : fwupLinesChecked [([0x61, 0x0a, 0x62], 0x800, 0x1)] 0 = some L := by decide
  have henc : encodeFwupTable [([0x61, 0x0a, 0x62], 0x800, 0x1)] =
      some (L ++ 0 :: List.replicate (0x7ff - L.length) 0xff) := by
    unfold encodeFwupTable
    rw [hlc, Option.map_some', if_neg (by decide)]
  rw [henc, Option.some_bind]
  -- the buffer seen by the decoder after the forced final NUL
  have hset : (L ++ 0 :: List.replicate (0x7ff - L.length) 0xff).set
      (SAFELOADER_PAYLOAD_TABLE_SIZE - 1) 0 =
      L ++ 0 :: ((List.replicate (0x7ff - L.length) 0xff).set 2005 0) := by
    rw [show SAFELOADER_PAYLOAD_TABLE_SIZE - 1 = 2047 from rfl,
      set_append_right _ _ _ _ (by decide),
      show (2047 : Nat) - L.length = 2005 + 1 by decide, List.set_cons_succ]
  set junk : List Nat := (List.replicate (0x7ff - L.length) 0xff).set 2005 0 with hjunk
  set rest : List Nat := L ++ 0 :: junk with hrest
  have hlen41 : L.length = 41 := by decide
  have hrlen : 8 < rest.length := by
    rw [hrest, List.length_append, hlen41, List.length_cons]
    omega
  -- the first 0x0A of the buffer is the one inside the name, at index 10
  have hnp : memchr rest 0 rest.length 0x0a = some 10 := by
    have h10 := memchr_found rest 0 rest.length 0x0a
      [102, 119, 117, 112, 45, 112, 116, 110, 32, 97]
      ([98, 32, 98, 97, 115, 101, 32, 48, 120, 48, 48, 56, 48, 48, 32, 115, 105, 122,
        101, 32, 48, 120, 48, 48, 48, 48, 49, 9, 13, 10] ++ 0 :: junk)
      (by rw [List.drop_zero, hrest, show L = [102, 119, 117, 112, 45, 112, 116, 110,
          32, 97] ++ 10 :: [98, 32, 98, 97, 115, 101, 32, 48, 120, 48, 48, 56, 48,
          48, 32, 115, 105, 122, 101, 32, 48, 120, 48, 48, 48, 48, 49, 9, 13, 10]
          by decide]
          simp [List.append_assoc])
      (by decide)
      (by rw [hrest, List.length_append, hlen41]
          simp only [List.length_cons, List.length_nil]
          omega)
    simpa using h10
  have he0 : memchr rest 0 10 0x20 = some 8 := by
    have h8 := memchr_found rest 0 10 0x20 [102, 119, 117, 112, 45, 112, 116, 110]
      ([97, 10, 98, 32, 98, 97, 115, 101, 32, 48, 120, 48, 48, 56, 48, 48, 32, 115,
        105, 122, 101, 32, 48, 120, 48, 48, 48, 48, 49, 9, 13, 10] ++ 0 :: junk)
      (by rw [List.drop_zero, hrest, show L = [102, 119, 117, 112, 45, 112, 116, 110]
          ++ 32 :: [97, 10, 98, 32, 98, 97, 115, 101, 32, 48, 120, 48, 48, 56, 48,
          48, 32, 115, 105, 122, 101, 32, 48, 120, 48, 48, 48, 48, 49, 9, 13, 10]
          by decide]
          simp [List.append_assoc])
      (by decide) (by decide)
    simpa using h8
  -- no space before the line terminator: error(1, ...) aborts
  have he1 : memchr rest 9 10 0x20 = none := by
    have hd9 : rest.drop 9 = 97 :: ([10, 98, 32, 98, 97, 115, 101, 32, 48, 120, 48,
        48, 56, 48, 48, 32, 115, 105, 122, 101, 32, 48, 120, 48, 48, 48, 48, 49, 9,
        13, 10] ++ 0 :: junk) := by
      rw [hrest, List.drop_append_of_le_length (by rw [hlen41]; omega),
        show L.drop 9 = 97 :: [10, 98, 32, 98, 97, 115, 101, 32, 48, 120, 48, 48,
          56, 48, 48, 32, 115, 105, 122, 101, 32, 48, 120, 48, 48, 48, 48, 49, 9,
          13, 10] by decide, List.cons_append]
    rw [memchr, hd9, show (10 : Nat) - 9 = 1 from rfl]
    rfl
  have hparse : parseEntry rest = .fatal := by
    unfold parseEntry
    rw [hnp]
    dsimp only
    rw [if_neg (by omega), he0]
    dsimp only
    rw [show (8 : Nat) + 1 = 9 from rfl, if_neg (by omega), he1]
  have hpfx : (str "fwup-ptn").isPrefixOf rest = true := by
    rw [hrest, show L = str "fwup-ptn" ++ [32, 97, 10, 98, 32, 98, 97, 115, 101, 32,
      48, 120, 48, 48, 56, 48, 48, 32, 115, 105, 122, 101, 32, 48, 120, 48, 48, 48,
      48, 49, 9, 13, 10] by decide, List.append_assoc]
    exact isPrefixOf_append_self _ _
  unfold read_partition_table
  rw [hset, if_pos hpfx, readLoop, if_pos ⟨hrlen, hpfx⟩, hparse]
  simp

/-- C6 (witness): the round-trip theorem applied to a concrete one-entry
table. -/
theorem C6_witness :
    (encodeFwupTable [(str "os-image", 0x800, 0x100)]).bind
      (fun tbl => (read_partition_table (str "fwup-ptn") tbl).map (fun r => r.2)) =
      some [⟨str "os-image", 0x800, 0x100⟩] :=
  C6_fwup_table_roundtrip [(str "os-image", 0x800, 0x100)] (by decide) (by decide)
    (by decide)

theorem fwupLinesChecked_some_of (ts : List (List Nat × Nat × Nat)) (pos : Nat)
    (h : pos + (fwupLines ts).length ≤ 0x7ff) :
    fwupLinesChecked ts pos = some (fwupLines ts) := by
  induction ts generalizing pos with
  | nil => rfl
  | cons e ts ih =>
    obtain ⟨nm, b, s⟩ := e
    have hlines : fwupLines ((nm, b, s) :: ts) =
        fwupLine nm (b % 2 ^ 32) (s % 2 ^ 32) ++ fwupLines ts := rfl
    rw [hlines, List.length_append] at h
    rw [fwupLinesChecked, if_neg (by omega), ih _ (by omega), Option.map_some', hlines]

theorem fwupLines_isEmpty_false (e : List Nat × Nat × Nat)
    (ts : List (List Nat × Nat × Nat)) : (fwupLines (e :: ts)).isEmpty = false := by
  obtain ⟨nm, b, s⟩ := e
  rw [List.isEmpty_eq_false_iff_exists_mem]
  refine ⟨0x66, ?_⟩
  rw [show fwupLines ((nm, b, s) :: ts) =
    fwupLine nm (b % 2 ^ 32) (s % 2 ^ 32) ++ fwupLines ts from rfl]
  apply List.mem_append.mpr
  left
  unfold fwupLine
  rw [show str "fwup-ptn " = 0x66 :: str "wup-ptn " by decide]
  simp

/-- C3 (amended): the image-table encoder writes no magic header: the
fwup-ptn lines start at offset 0 of the fixed 0x800-byte region, one per
partition in the order supplied, followed by one NUL byte (the
terminator stored by the last snprintf) and 0xFF padding up to the
region size, and the encoder fails fatally when the formatted lines
would exceed the region.  The 4-byte magic header 00 04 00 00 is
written by the flash-form table generator make_partition_table at the
start of the partition-table partition instead. -/
theorem C3_fwup_table_layout (ts : List (List Nat × Nat × Nat)) :
    (0x7ff < (fwupLines ts).length → encodeFwupTable ts = none) ∧
    ((fwupLines ts).length ≤ 0x7ff → ts ≠ [] →
      encodeFwupTable ts = some (fwupLines ts ++ 0 ::
        List.replicate (0x7ff - (fwupLines ts).length) 0xff) ∧
      (fwupLines ts ++ 0 ::
        List.replicate (0x7ff - (fwupLines ts).length) 0xff).length = 0x800) ∧
    (∀ nm ps pt, make_partition_table nm ps = some pt →
      pt.data.take 4 = [0x00, 0x04, 0x00, 0x00]) := by
  refine ⟨?_, ?_, ?_⟩
  · intro h
    unfold encodeFwupTable
    cases hc : fwupLinesChecked ts 0 with
    | none => rfl
    | some ls =>
      have he := fwupLinesChecked_eq ts 0 ls hc
      rcases fwupLinesChecked_le ts 0 ls hc with h2 | h2
      · rw [he] at h2
        omega
      · rw [h2] at he
        rw [← he] at h
        simp at h
  · intro h hne
    have hc := fwupLinesChecked_some_of ts 0 (by omega)
    constructor
    · unfold encodeFwupTable
      rw [hc, Option.map_some']
      cases ts with
      | nil => exact absurd rfl hne
      | cons e ts' => rw [fwupLines_isEmpty_false e ts']
                      simp
    · rw [List.length_append, List.length_cons, List.length_replicate]
      omega
  · intro nm ps pt hpt
    unfold make_partition_table at hpt
    cases hc : flashLinesChecked ps 4 with
    | none => rw [hc, Option.map_none'] at hpt; cases hpt
    | some ls =>
      rw [hc, Option.map_some'] at hpt
      injection hpt with hpt
      rw [← hpt]
      exact List.take_left [0x00, 0x04, 0x00, 0x00] _

/-- C3 (counterexample to the claim as stated): the encoded image table
for a one-partition list starts with the ASCII bytes of "fwup", not
with the magic header 00 04 00 00 the claim places there. -/
theorem C3_counterexample :
    (encodeFwupTable [(str "os-image", 0x800, 0x100)]).map (fun t => t.take 4) =
      some (str "fwup") ∧ str "fwup" ≠ [0x00, 0x04, 0x00, 0x00] := by
  constructor
  · decide
  · decide

/-- C3 (witness): the amended layout theorem applied to a concrete
one-entry table and a concrete flash partition list. -/
theorem C3_witness :
    encodeFwupTable [(str "os-image", 0x800, 0x100)] =
      some (fwupLines [(str "os-image", 0x800, 0x100)] ++ 0 ::
        List.replicate (0x7ff - (fwupLines [(str "os-image", 0x800, 0x100)]).length)
          0xff) ∧
    ((make_partition_table (str "partition-table")
        [⟨str "os-image", 0, 0x100⟩]).getD ⟨[], []⟩).data.take 4 =
      [0x00, 0x04, 0x00, 0x00] :=
  ⟨((C3_fwup_table_layout [(str "os-image", 0x800, 0x100)]).2.1 (by decide)
      (by decide)).1,
   (C3_fwup_table_layout []).2.2 (str "partition-table") [⟨str "os-image", 0, 0x100⟩]
      _ rfl⟩

theorem align_le (x a : Nat) : align x a ≤ x + a - 1 := Nat.div_mul_le_self _ _

theorem firmware_split_spec (names : PartNames) (ps : List FlashEntry) (k : Nat)
    (sys : Bool) (i : Nat) (qs : List FlashEntry) (fsE : FlashEntry)
    (hidx : findFirmwareIdx ps = some i) (hlt : i < ps.length)
    (hsplit : firmware_split names ps k sys = some (qs, some fsE)) :
    k ≤ (ps.getD i ⟨[], 0, 0⟩).size ∧
    fsE = ⟨names.file_system,
      (if sys then (ps.getD i ⟨[], 0, 0⟩).base + k
       else align ((ps.getD i ⟨[], 0, 0⟩).base + k) 0x10000) % 2 ^ 32,
      wrapSub (ps.getD i ⟨[], 0, 0⟩).size
        ((if sys then (ps.getD i ⟨[], 0, 0⟩).base + k
          else align ((ps.getD i ⟨[], 0, 0⟩).base + k) 0x10000) % 2 ^ 32)⟩ ∧
    qs[i]? = some ⟨names.os_image, (ps.getD i ⟨[], 0, 0⟩).base, k % 2 ^ 32⟩ ∧
    qs[i + 1]? = some fsE := by
  unfold firmware_split at hsplit
  rw [hidx] at hsplit
  dsimp only at hsplit
  by_cases hk : k > (ps.getD i ⟨[], 0, 0⟩).size
  · rw [if_pos hk] at hsplit
    cases hsplit
  · rw [if_neg hk] at hsplit
    injection hsplit with hsplit
    injection hsplit with hqs hfs
    injection hfs with hfs
    refine ⟨by omega, hfs.symm, ?_, ?_⟩
    · rw [← hqs, List.getElem?_append_left
        (by rw [List.length_take, List.length_set]; omega)]
      rw [List.getElem?_take, if_pos (by omega), List.getElem?_set_self hlt]
    · rw [← hqs, List.getElem?_append_right
        (by rw [List.length_take, List.length_set]; omega)]
      rw [List.length_take, List.length_set,
        show min (i + 1) ps.length = i + 1 by omega, Nat.sub_self, hfs]
      exact List.getElem?_cons_zero

/-- C2 (amended): when a flash partition named "firmware" exists, the
split renames it to the os-image slot with size = kernel size, and the
inserted file-system slot has size = firmware.size − file_system.base
computed in uint32 arithmetic, where the subtrahend is the file-system
slot's absolute base (not its offset from firmware.base): whenever that
base is at most firmware.size the slot ends at absolute offset
firmware.size rather than at the end of the original firmware slot. -/
theorem C2_split_sizes (names : PartNames) (ps : List FlashEntry) (k : Nat)
    (sys : Bool) (i : Nat) (qs : List FlashEntry) (fsE : FlashEntry)
    (hidx : findFirmwareIdx ps = some i) (hlt : i < ps.length)
    (hsplit : firmware_split names ps k sys = some (qs, some fsE))
    (hk32 : k < 2 ^ 32) (hfw32 : (ps.getD i ⟨[], 0, 0⟩).size < 2 ^ 32) :
    qs[i]? = some ⟨names.os_image, (ps.getD i ⟨[], 0, 0⟩).base, k⟩ ∧
    qs[i + 1]? = some fsE ∧
    fsE.size = wrapSub (ps.getD i ⟨[], 0, 0⟩).size fsE.base ∧
    (fsE.base ≤ (ps.getD i ⟨[], 0, 0⟩).size →
      fsE.size = (ps.getD i ⟨[], 0, 0⟩).size - fsE.base) := by
  obtain ⟨hkle, hfsE, hos, hfs'⟩ :=
    firmware_split_spec names ps k sys i qs fsE hidx hlt hsplit
  rw [Nat.mod_eq_of_lt hk32] at hos
  have hbase : fsE.base = (if sys then (ps.getD i ⟨[], 0, 0⟩).base + k
      else align ((ps.getD i ⟨[], 0, 0⟩).base + k) 0x10000) % 2 ^ 32 := by
    rw [hfsE]
  have hsize : fsE.size = wrapSub (ps.getD i ⟨[], 0, 0⟩).size
      ((if sys then (ps.getD i ⟨[], 0, 0⟩).base + k
        else align ((ps.getD i ⟨[], 0, 0⟩).base + k) 0x10000) % 2 ^ 32) := by
    rw [hfsE]
  refine ⟨hos, hfs', ?_, ?_⟩
  · rw [hsize, ← hbase]
  · intro hfs
    rw [hsize, ← hbase, wrapSub_eq_sub _ _ hfw32 hfs]

/-- C7 (amended): the file-system slot starts at firmware.base + kernel
size, rounded up to the next 64 KiB boundary for factory images only
and left unrounded for sysupgrade images; in the concrete scenario with
firmware base 0x40000 and kernel size 0x150000 the non-sysupgrade build
yields an os-image slot with base 0x40000 and size 0x150000 and a
file-system slot with base ALIGN(0x190000, 0x10000) = 0x190000 (not
0x1a0000: 0x190000 is already 64 KiB aligned). -/
theorem C7_split_base (names : PartNames) (ps : List FlashEntry) (k : Nat)
    (sys : Bool) (i : Nat) (qs : List FlashEntry) (fsE : FlashEntry)
    (hidx : findFirmwareIdx ps = some i) (hlt : i < ps.length)
    (hsplit : firmware_split names ps k sys = some (qs, some fsE))
    (hnw : (ps.getD i ⟨[], 0, 0⟩).base + k + 0x10000 < 2 ^ 32) :
    fsE.name = names.file_system ∧
    fsE.base = (if sys then (ps.getD i ⟨[], 0, 0⟩).base + k
      else align ((ps.getD i ⟨[], 0, 0⟩).base + k) 0x10000) ∧
    qs[i]? = some ⟨names.os_image, (ps.getD i ⟨[], 0, 0⟩).base, k % 2 ^ 32⟩ ∧
    qs[i + 1]? = some fsE := by
  obtain ⟨hkle, hfsE, hos, hfs'⟩ :=
    firmware_split_spec names ps k sys i qs fsE hidx hlt hsplit
  have hmod : (if sys then (ps.getD i ⟨[], 0, 0⟩).base + k
      else align ((ps.getD i ⟨[], 0, 0⟩).base + k) 0x10000) % 2 ^ 32 =
      (if sys then (ps.getD i ⟨[], 0, 0⟩).base + k
       else align ((ps.getD i ⟨[], 0, 0⟩).base + k) 0x10000) := by
    apply Nat.mod_eq_of_lt
    by_cases hs : sys
    · rw [if_pos hs]
      omega
    · rw [if_neg hs]
      have := align_le ((ps.getD i ⟨[], 0, 0⟩).base + k) 0x10000
      omega
  refine ⟨by rw [hfsE], by rw [hfsE]; exact hmod, hos, hfs'⟩

/-- C2 (counterexample to the claim as stated): for the concrete profile
with firmware base 0x40000 size 0x770000 and kernel size 0x150000, the
split produces a file-system slot with base 0x190000 and size
0x770000 − 0x190000 = 0x5e0000, not
firmware.size − (file_system.base − firmware.base) =
0x770000 − 0x150000 = 0x620000 as the claim states; the slot therefore
ends at absolute offset 0x190000 + 0x5e0000 = 0x770000, short of the
end 0x40000 + 0x770000 = 0x7b0000 of the original firmware slot. -/
theorem C2_counterexample :
    (firmware_split {} [⟨str "fs-uboot", 0, 0x20000⟩, ⟨str "firmware", 0x40000, 0x770000⟩,
        ⟨str "soft-version", 0x7b0000, 0x100⟩, ⟨str "support-list", 0x7b1000, 0x400⟩]
        0x150000 false).map (fun r => r.2.map (fun e => (e.base, e.size))) =
      some (some (0x190000, 0x5e0000)) ∧
    (0x5e0000 : Nat) ≠ 0x770000 - (0x190000 - 0x40000) ∧
    (0x190000 + 0x5e0000 : Nat) ≠ 0x40000 + 0x770000 := by
  refine ⟨by decide, by decide, by decide⟩

/-- C7 (counterexample to the claim as stated): in the claim's concrete
scenario the file-system base is ALIGN(0x40000 + 0x150000, 0x10000) =
0x190000, not 0x1a0000. -/
theorem C7_counterexample :
    (firmware_split {} [⟨str "fs-uboot", 0, 0x20000⟩, ⟨str "firmware", 0x40000, 0x770000⟩,
        ⟨str "soft-version", 0x7b0000, 0x100⟩, ⟨str "support-list", 0x7b1000, 0x400⟩]
        0x150000 false).map (fun r => r.2.map (fun e => e.base)) =
      some (some 0x190000) ∧
    align (0x40000 + 0x150000) 0x10000 = 0x190000 ∧ (0x190000 : Nat) ≠ 0x1a0000 := by
  refine ⟨by decide, by decide, by decide⟩

/-- C2 (witness): the amended size theorem applied to the concrete
profile of the spec's scenario. -/
theorem C2_witness :
    ([⟨str "fs-uboot", 0, 0x20000⟩, ⟨str "os-image", 0x40000, 0x150000⟩,
      ⟨str "file-system", 0x190000, 0x5e0000⟩, ⟨str "soft-version", 0x7b0000, 0x100⟩,
      ⟨str "support-list", 0x7b1000, 0x400⟩] : List FlashEntry)[1]? =
      some ⟨(PartNames.os_image {}), 0x40000, 0x150000⟩ ∧
    ([⟨str "fs-uboot", 0, 0x20000⟩, ⟨str "os-image", 0x40000, 0x150000⟩,
      ⟨str "file-system", 0x190000, 0x5e0000⟩, ⟨str "soft-version", 0x7b0000, 0x100⟩,
      ⟨str "support-list", 0x7b1000, 0x400⟩] : List FlashEntry)[2]? =
      some ⟨str "file-system", 0x190000, 0x5e0000⟩ ∧
    (FlashEntry.size ⟨str "file-system", 0x190000, 0x5e0000⟩) =
      wrapSub (FlashEntry.size (List.getD [⟨str "fs-uboot", 0, 0x20000⟩,
        ⟨str "firmware", 0x40000, 0x770000⟩, ⟨str "soft-version", 0x7b0000, 0x100⟩,
        ⟨str "support-list", 0x7b1000, 0x400⟩] 1 ⟨[], 0, 0⟩))
        (FlashEntry.base ⟨str "file-system", 0x190000, 0x5e0000⟩) ∧
    (FlashEntry.size ⟨str "file-system", 0x190000, 0x5e0000⟩) =
      (FlashEntry.size (List.getD [⟨str "fs-uboot", 0, 0x20000⟩,
        ⟨str "firmware", 0x40000, 0x770000⟩, ⟨str "soft-version", 0x7b0000, 0x100⟩,
        ⟨str "support-list", 0x7b1000, 0x400⟩] 1 ⟨[], 0, 0⟩)) -
      (FlashEntry.base ⟨str "file-system", 0x190000, 0x5e0000⟩) := by
  have h := C2_split_sizes {} [⟨str "fs-uboot", 0, 0x20000⟩,
    ⟨str "firmware", 0x40000, 0x770000⟩, ⟨str "soft-version", 0x7b0000, 0x100⟩,
    ⟨str "support-list", 0x7b1000, 0x400⟩] 0x150000 false 1
    [⟨str "fs-uboot", 0, 0x20000⟩, ⟨str "os-image", 0x40000, 0x150000⟩,
     ⟨str "file-system", 0x190000, 0x5e0000⟩, ⟨str "soft-version", 0x7b0000, 0x100⟩,
     ⟨str "support-list", 0x7b1000, 0x400⟩]
    ⟨str "file-system", 0x190000, 0x5e0000⟩
    (by decide) (by decide) (by decide) (by decide) (by decide)
  exact ⟨h.1, h.2.1, h.2.2.1, h.2.2.2 (by decide)⟩

/-- C7 (witness): the amended base theorem applied to the concrete
profile of the spec's scenario. -/
theorem C7_witness :
    (FlashEntry.name ⟨str "file-system", 0x190000, 0x5e0000⟩) =
      (PartNames.file_system {}) ∧
    (FlashEntry.base ⟨str "file-system", 0x190000, 0x5e0000⟩) =
      (if false then 0x40000 + 0x150000 else align (0x40000 + 0x150000) 0x10000) := by
  have h := C7_split_base {} [⟨str "fs-uboot", 0, 0x20000⟩,
    ⟨str "firmware", 0x40000, 0x770000⟩, ⟨str "soft-version", 0x7b0000, 0x100⟩,
    ⟨str "support-list", 0x7b1000, 0x400⟩] 0x150000 false 1
    [⟨str "fs-uboot", 0, 0x20000⟩, ⟨str "os-image", 0x40000, 0x150000⟩,
     ⟨str "file-system", 0x190000, 0x5e0000⟩, ⟨str "soft-version", 0x7b0000, 0x100⟩,
     ⟨str "support-list", 0x7b1000, 0x400⟩]
    ⟨str "file-system", 0x190000, 0x5e0000⟩
    (by decide) (by decide) (by decide) (by decide)
  exact ⟨h.1, h.2.1⟩

/-- C5: the meta-partition encoder produces exactly 8 + len(payload) +
(1 if the trail policy designates a pad value in [0x00, 0xFF] else 0)
bytes: a header holding the payload length as a big-endian u32 followed
by a zero u32, the payload verbatim, and a single pad byte as the final
byte exactly when the policy designates one. -/
theorem C5_meta_partition (name data : List Nat) (pv : Nat)
    (hlen : data.length < 2 ^ 32) :
    (init_meta_partition_entry name data pv).data.length =
      8 + data.length + (if pv ≤ 0xff then 1 else 0) ∧
    be32val ((init_meta_partition_entry name data pv).data.take 4) = data.length ∧
    (((init_meta_partition_entry name data pv).data.drop 4).take 4) = [0, 0, 0, 0] ∧
    (((init_meta_partition_entry name data pv).data.drop 8).take data.length) = data ∧
    (pv ≤ 0xff →
      (init_meta_partition_entry name data pv).data.drop (8 + data.length) =
        [pv % 256]) ∧
    (0xff < pv →
      (init_meta_partition_entry name data pv).data.drop (8 + data.length) = []) := by
  have hdata : (init_meta_partition_entry name data pv).data =
      be32 (data.length % 2 ^ 32) ++ ([0, 0, 0, 0] ++ (data ++
        (if meta_partition_should_pad pv then [pv % 256] else []))) := by
    unfold init_meta_partition_entry
    simp [List.append_assoc]
  have hpad : (meta_partition_should_pad pv = true) ↔ pv ≤ 0xff := by
    unfold meta_partition_should_pad
    simp
  have d4 : (init_meta_partition_entry name data pv).data.drop 4 =
      [0, 0, 0, 0] ++ (data ++
        (if meta_partition_should_pad pv then [pv % 256] else [])) := by
    rw [hdata]
    exact drop_len_append _ _ _ (by rw [be32_length])
  have d8 : (init_meta_partition_entry name data pv).data.drop 8 =
      data ++ (if meta_partition_should_pad pv then [pv % 256] else []) := by
    rw [drop_chain _ 4 8 _ d4 (by omega)]
    exact drop_len_append _ _ _ (by decide)
  have dtrail : (init_meta_partition_entry name data pv).data.drop (8 + data.length) =
      (if meta_partition_should_pad pv then [pv % 256] else []) := by
    rw [drop_chain _ 8 (8 + data.length) _ d8 (by omega),
      show 8 + data.length - 8 = data.length by omega]
    exact drop_len_append _ _ _ rfl
  refine ⟨?_, ?_, ?_, ?_, ?_, ?_⟩
  · rw [hdata]
    simp only [List.length_append, be32_length]
    by_cases hp : pv ≤ 0xff
    · rw [if_pos (hpad.mpr hp), if_pos hp]
      simp
      omega
    · rw [if_neg (fun hc => hp (hpad.mp hc)), if_neg hp]
      simp
      omega
  · rw [hdata]
    have h' := List.take_left (be32 (data.length % 2 ^ 32))
      ([0, 0, 0, 0] ++ (data ++
        (if meta_partition_should_pad pv then [pv % 256] else [])))
    rw [be32_length] at h'
    rw [h', be32val_be32 _ (Nat.mod_lt _ (by omega)), Nat.mod_eq_of_lt hlen]
  · rw [d4]
    exact List.take_left [0, 0, 0, 0] _
  · rw [d8]
    exact List.take_left data _
  · intro hp
    rw [dtrail, if_pos (hpad.mpr hp)]
  · intro hp
    rw [dtrail, if_neg (fun hc => by have := hpad.mp hc; omega)]

/-- C5 (witness): the concrete support-list scenario: a 23-byte payload
with trail byte 0xFF encodes to 32 bytes whose header is
00 00 00 17 00 00 00 00 and whose final byte is 0xFF. -/
theorem C5_witness :
    (init_meta_partition_entry (str "support-list")
      (str "SupportList:\r\nFOO:1.0\r\n") 0xff).data.length = 32 ∧
    be32val ((init_meta_partition_entry (str "support-list")
      (str "SupportList:\r\nFOO:1.0\r\n") 0xff).data.take 4) = 0x17 ∧
    (((init_meta_partition_entry (str "support-list")
      (str "SupportList:\r\nFOO:1.0\r\n") 0xff).data.drop 4).take 4) = [0, 0, 0, 0] ∧
    (init_meta_partition_entry (str "support-list")
      (str "SupportList:\r\nFOO:1.0\r\n") 0xff).data.drop
        (8 + (str "SupportList:\r\nFOO:1.0\r\n").length) = [0xff] := by
  have h := C5_meta_partition (str "support-list")
    (str "SupportList:\r\nFOO:1.0\r\n") 0xff (by decide)
  refine ⟨?_, ?_, h.2.2.1, ?_⟩
  · rw [h.1]
    decide
  · rw [h.2.1]
    decide
  · simpa using h.2.2.2.2.1 (by decide)

theorem read_table_ff (h0 : Nat) (hdr' : List Nat) (h : h0 ≠ 0xff) :
    read_partition_table (h0 :: hdr') (List.replicate 0x800 0xff) = some (false, []) := by
  have hset : (List.replicate 0x800 (0xff : Nat)).set
      (SAFELOADER_PAYLOAD_TABLE_SIZE - 1) 0 =
      0xff :: ((List.replicate 0x7ff 0xff).set 0x7fe 0) := by
    rw [show (0x800 : Nat) = 0x7ff + 1 from rfl, List.replicate_succ,
      show SAFELOADER_PAYLOAD_TABLE_SIZE - 1 = 0x7fe + 1 from rfl, List.set_cons_succ]
  unfold read_partition_table
  rw [hset, if_neg]
  rw [List.isPrefixOf_cons₂]
  simp only [Bool.and_eq_true, beq_iff_eq]
  intro hc
  exact h hc.1

theorem parse_structure (image : List Nat) (r : SafeloaderType × Nat × List FlashEntry)
    (hparse : safeloader_parse_image image = some r) :
    r.1 = (if (str "?NEW").isPrefixOf ((image.drop SAFELOADER_PREAMBLE_SIZE).take 64)
        then SafeloaderType.QNEW
      else if (str "fw-type:Cloud").isPrefixOf
          ((image.drop SAFELOADER_PREAMBLE_SIZE).take 64) then SafeloaderType.CLOUD
      else if be32val ((image.drop SAFELOADER_PREAMBLE_SIZE).take 64) ≤
          SAFELOADER_HEADER_SIZE then SafeloaderType.VENDOR
      else SafeloaderType.DEFAULT) ∧
    r.2.1 = (match r.1 with
      | SafeloaderType.QNEW => SAFELOADER_QNEW_PAYLOAD_OFFSET
      | _ => SAFELOADER_PAYLOAD_OFFSET) := by
  unfold safeloader_parse_image at hparse
  by_cases h1 : image.length < SAFELOADER_PREAMBLE_SIZE + 64
  · rw [if_pos h1] at hparse
    cases hparse
  · rw [if_neg h1] at hparse
    dsimp only at hparse
    by_cases h2 : image.length < (match
        (if (str "?NEW").isPrefixOf ((image.drop SAFELOADER_PREAMBLE_SIZE).take 64)
          then SafeloaderType.QNEW
         else if (str "fw-type:Cloud").isPrefixOf
            ((image.drop SAFELOADER_PREAMBLE_SIZE).take 64) then SafeloaderType.CLOUD
         else if be32val ((image.drop SAFELOADER_PREAMBLE_SIZE).take 64) ≤
            SAFELOADER_HEADER_SIZE then SafeloaderType.VENDOR
         else SafeloaderType.DEFAULT) with
        | SafeloaderType.QNEW => SAFELOADER_QNEW_PAYLOAD_OFFSET
        | _ => SAFELOADER_PAYLOAD_OFFSET) + SAFELOADER_PAYLOAD_TABLE_SIZE
    · rw [if_pos h2] at hparse
      cases hparse
    · rw [if_neg h2] at hparse
      cases hrt : read_partition_table (str "fwup-ptn")
          ((image.drop (match
            (if (str "?NEW").isPrefixOf ((image.drop SAFELOADER_PREAMBLE_SIZE).take 64)
              then SafeloaderType.QNEW
             else if (str "fw-type:Cloud").isPrefixOf
                ((image.drop SAFELOADER_PREAMBLE_SIZE).take 64) then SafeloaderType.CLOUD
             else if be32val ((image.drop SAFELOADER_PREAMBLE_SIZE).take 64) ≤
                SAFELOADER_HEADER_SIZE then SafeloaderType.VENDOR
             else SafeloaderType.DEFAULT) with
            | SafeloaderType.QNEW => SAFELOADER_QNEW_PAYLOAD_OFFSET
            | _ => SAFELOADER_PAYLOAD_OFFSET)).take SAFELOADER_PAYLOAD_TABLE_SIZE) with
      | none => rw [hrt] at hparse; cases hparse
      | some p =>
        rw [hrt] at hparse
        obtain ⟨flag, es⟩ := p
        injection hparse with hparse
        rw [← hparse]
        exact ⟨rfl, rfl⟩

/-- C4: variant detection over the 64 bytes at offset 0x14 yields QNEW
when they start with "?NEW", else CLOUD when they start with
"fw-type:Cloud", else VENDOR when their leading big-endian u32 is at
most 0x1000, else DEFAULT; the payload offset is 0x14 + 0x1000 = 0x1014
for DEFAULT, VENDOR and CLOUD, and 0x14 + 0x3C + 0x1000 = 0x1050 for
QNEW. -/
theorem C4_variant_detection (image : List Nat)
    (r : SafeloaderType × Nat × List FlashEntry)
    (hparse : safeloader_parse_image image = some r) :
    SAFELOADER_PAYLOAD_OFFSET = 0x14 + 0x1000 ∧
    SAFELOADER_QNEW_PAYLOAD_OFFSET = 0x14 + 0x3c + 0x1000 ∧
    ((str "?NEW").isPrefixOf ((image.drop 0x14).take 64) = true →
      r.1 = SafeloaderType.QNEW ∧ r.2.1 = 0x1050) ∧
    ((str "?NEW").isPrefixOf ((image.drop 0x14).take 64) = false →
      (str "fw-type:Cloud").isPrefixOf ((image.drop 0x14).take 64) = true →
      r.1 = SafeloaderType.CLOUD ∧ r.2.1 = 0x1014) ∧
    ((str "?NEW").isPrefixOf ((image.drop 0x14).take 64) = false →
      (str "fw-type:Cloud").isPrefixOf ((image.drop 0x14).take 64) = false →
      be32val ((image.drop 0x14).take 64) ≤ 0x1000 →
      r.1 = SafeloaderType.VENDOR ∧ r.2.1 = 0x1014) ∧
    ((str "?NEW").isPrefixOf ((image.drop 0x14).take 64) = false →
      (str "fw-type:Cloud").isPrefixOf ((image.drop 0x14).take 64) = false →
      0x1000 < be32val ((image.drop 0x14).take 64) →
      r.1 = SafeloaderType.DEFAULT ∧ r.2.1 = 0x1014) := by
  obtain ⟨hty, hoff⟩ := parse_structure image r hparse
  have hpre : image.drop SAFELOADER_PREAMBLE_SIZE = image.drop 0x14 := rfl
  rw [hpre] at hty
  refine ⟨rfl, rfl, ?_, ?_, ?_, ?_⟩
  · intro hq
    rw [hq] at hty
    simp only [if_true] at hty
    rw [hty] at hoff
    exact ⟨hty, hoff⟩
  · intro hq hc
    rw [hq, hc] at hty
    simp only [Bool.false_eq_true, if_false, if_true] at hty
    rw [hty] at hoff
    exact ⟨hty, hoff⟩
  · intro hq hc hv
    rw [hq, hc] at hty
    simp only [Bool.false_eq_true, if_false] at hty
    rw [if_pos (show be32val ((image.drop 0x14).take 64) ≤ SAFELOADER_HEADER_SIZE
      from hv)] at hty
    rw [hty] at hoff
    exact ⟨hty, hoff⟩
  · intro hq hc hv
    rw [hq, hc] at hty
    simp only [Bool.false_eq_true, if_false] at hty
    rw [if_neg (show ¬be32val ((image.drop 0x14).take 64) ≤ SAFELOADER_HEADER_SIZE
      by unfold SAFELOADER_HEADER_SIZE; omega)] at hty
    rw [hty] at hoff
    exact ⟨hty, hoff⟩

/-- C4 (witness): a synthetic image whose 64-byte header block starts
with "?NEW" parses as QNEW with payload offset 0x1050. -/
theorem C4_witness :
    (SafeloaderType.QNEW, 0x1050, ([] : List FlashEntry)).1 = SafeloaderType.QNEW ∧
    (SafeloaderType.QNEW, 0x1050, ([] : List FlashEntry)).2.1 = 0x1050 := by
  have himg : safeloader_parse_image (List.replicate 0x14 0 ++ (str "?NEW" ++
      List.replicate 0x1838 0xff)) = some (SafeloaderType.QNEW, 0x1050, []) := by
    have hdrop : (List.replicate 0x14 (0 : Nat) ++ (str "?NEW" ++
        List.replicate 0x1838 0xff)).drop SAFELOADER_PREAMBLE_SIZE =
        str "?NEW" ++ List.replicate 0x1838 0xff :=
      drop_len_append _ _ _ (by rw [List.length_replicate]; rfl)
    have hbuf : ((List.replicate 0x14 (0 : Nat) ++ (str "?NEW" ++
        List.replicate 0x1838 0xff)).drop SAFELOADER_PREAMBLE_SIZE).take 64 =
        str "?NEW" ++ List.replicate 60 0xff := by
      rw [hdrop, show (64 : Nat) = (str "?NEW").length + 60 from rfl,
        List.take_append, List.take_replicate]
      rfl
    have hlen : (List.replicate 0x14 (0 : Nat) ++ (str "?NEW" ++
        List.replicate 0x1838 0xff)).length = 0x1850 := by
      simp only [List.length_append, List.length_replicate,
        show (str "?NEW").length = 4 by decide]
    have htbl : ((List.replicate 0x14 (0 : Nat) ++ (str "?NEW" ++
        List.replicate 0x1838 0xff)).drop SAFELOADER_QNEW_PAYLOAD_OFFSET).take
        SAFELOADER_PAYLOAD_TABLE_SIZE = List.replicate 0x800 0xff := by
      rw [show SAFELOADER_QNEW_PAYLOAD_OFFSET = 0x1050 from rfl,
        drop_more_append _ _ _ (by rw [List.length_replicate]; omega),
        List.length_replicate,
        drop_more_append _ _ _ (by rw [show (str "?NEW").length = 4 by decide]; omega),
        show (str "?NEW").length = 4 by decide, List.drop_replicate,
        List.take_replicate]
      rfl
    unfold safeloader_parse_image
    rw [if_neg (by rw [hlen]; decide)]
    dsimp only
    rw [hbuf, if_pos (isPrefixOf_append_self _ _)]
    dsimp only
    rw [if_neg (by rw [hlen]; decide), htbl,
      show str "fwup-ptn" = 0x66 :: str "wup-ptn" from rfl,
      read_table_ff 0x66 _ (by decide)]
    rfl
  have h := C4_variant_detection _ _ himg
  have hq : (str "?NEW").isPrefixOf (((List.replicate 0x14 (0 : Nat) ++ (str "?NEW" ++
      List.replicate 0x1838 0xff)).drop 0x14).take 64) = true := by
    rw [drop_len_append _ _ _ (List.length_replicate _ _).symm,
      show (64 : Nat) = (str "?NEW").length + 60 from rfl,
      List.take_append, List.take_replicate]
    exact isPrefixOf_append_self _ _
  exact ⟨(h.2.2.1 hq).1, (h.2.2.1 hq).2⟩

theorem vendorWrites_offset (vendor : Option (List Nat)) :
    ∀ w ∈ vendorWrites vendor, SAFELOADER_PREAMBLE_SIZE ≤ w.1 := by
  intro w hw
  cases vendor with
  | none => cases hw
  | some v =>
    rcases hw with _ | ⟨_, hw⟩
    · exact Nat.le_refl _
    · rcases hw with _ | ⟨_, hw⟩
      · exact Nat.le_add_right _ _
      · cases hw

/-- C1: for every accepted input (flash table, built partitions, optional
vendor block) the factory build yields a length equal to
payload_offset + 0x800 + the sum of built partition sizes, an image whose
first four bytes are that length big-endian, whose 16 bytes at offset
0x04 are the digest of the fixed salt followed by the image bytes from
offset 0x14 to the end, and whose bytes outside every write are 0xFF. -/
theorem C1_factory_image (digest : List Nat → List Nat) (vendor : Option (List Nat))
    (flash : List FlashEntry) (parts : List ImgPart) (len : Nat)
    (ws : List (Nat × List Nat))
    (hgen : generate_factory_image digest vendor flash parts = some (len, ws))
    (hlen : len < 2 ^ 32)
    (hdig : ∀ x, (digest x).length = 16) :
    len = SAFELOADER_PAYLOAD_OFFSET + SAFELOADER_PAYLOAD_TABLE_SIZE +
        (parts.map (fun p => p.data.length)).sum ∧
    be32val (extract (foldWrites ws) 0 4) = len ∧
    extract (foldWrites ws) 0x04 16 =
      digest (md5_salt ++ extract (foldWrites ws) SAFELOADER_PREAMBLE_SIZE
        (len - SAFELOADER_PREAMBLE_SIZE)) ∧
    (∀ i, (∀ w ∈ ws, i < w.1 ∨ w.1 + w.2.length ≤ i) → foldWrites ws i = 0xff) := by
  unfold generate_factory_image at hgen
  cases hp : putPartitionsWrites flash parts 0 SAFELOADER_PAYLOAD_TABLE_SIZE with
  | none => rw [hp, Option.map_none'] at hgen; cases hgen
  | some pws =>
    rw [hp, Option.map_some'] at hgen
    dsimp only at hgen
    injection hgen with hgen
    rw [Prod.mk.injEq] at hgen
    obtain ⟨hE, hW⟩ := hgen
    subst hE
    subst hW
    set E := SAFELOADER_PAYLOAD_OFFSET + SAFELOADER_PAYLOAD_TABLE_SIZE +
      (parts.map (fun p => p.data.length)).sum with hEdef
    set pre := (0, be32 (E % 2 ^ 32)) :: (vendorWrites vendor ++
      pws.map (fun w => (SAFELOADER_PAYLOAD_OFFSET + w.1, w.2))) with hpre
    set m := digest (md5_salt ++ extract (foldWrites pre) SAFELOADER_PREAMBLE_SIZE
      (E - SAFELOADER_PREAMBLE_SIZE)) with hm
    have hml : m.length = 16 := hdig _
    have hrest : ∀ w ∈ (vendorWrites vendor ++
        pws.map (fun w => (SAFELOADER_PAYLOAD_OFFSET + w.1, w.2))) ++ [(4, m)],
        4 ≤ w.1 := by
      intro w hw
      rcases List.mem_append.mp hw with hw | hw
      · rcases List.mem_append.mp hw with hw | hw
        · exact Nat.le_trans (by decide) (vendorWrites_offset vendor w hw)
        · obtain ⟨x, _, rfl⟩ := List.mem_map.mp hw
          have h14 : SAFELOADER_PAYLOAD_OFFSET = 0x1014 := rfl
          show 4 ≤ SAFELOADER_PAYLOAD_OFFSET + x.1
          omega
      · rcases hw with _ | ⟨_, hw⟩
        · exact Nat.le_refl _
        · cases hw
    have hfirst : ∀ j, j < 4 →
        foldWrites (pre ++ [(4, m)]) j = (be32 (E % 2 ^ 32)).getD j 0 := by
      intro j hj
      have hc := foldl_writes_cover []
        ((vendorWrites vendor ++
          pws.map (fun w => (SAFELOADER_PAYLOAD_OFFSET + w.1, w.2))) ++ [(4, m)])
        0 (be32 (E % 2 ^ 32)) (fun _ => 0xff) j
        (fun w hw => Or.inl (Nat.lt_of_lt_of_le hj (hrest w hw)))
        (Nat.zero_le j) (by rw [be32_length]; omega)
      rw [List.nil_append, Nat.sub_zero] at hc
      rw [hpre, List.cons_append]
      exact hc
    have h2 : extract (foldWrites (pre ++ [(4, m)])) 0 4 = be32 (E % 2 ^ 32) := by
      have he := (extract_eq_iff (foldWrites (pre ++ [(4, m)])) 0
        (be32 (E % 2 ^ 32))).mpr (fun j hj => by
          rw [Nat.zero_add]
          exact hfirst j (by rw [be32_length] at hj; exact hj))
      rw [be32_length] at he
      exact he
    have hshift : ∀ i, SAFELOADER_PREAMBLE_SIZE ≤ i →
        foldWrites (pre ++ [(4, m)]) i = foldWrites pre i := by
      intro i hi
      show ((pre ++ [(4, m)]).foldl
          (fun (b : Nat → Nat) (w : Nat × List Nat) => writeBytes b w.1 w.2)
          (fun _ => 0xff)) i =
        (pre.foldl (fun (b : Nat → Nat) (w : Nat × List Nat) => writeBytes b w.1 w.2)
          (fun _ => 0xff)) i
      rw [List.foldl_append, List.foldl_cons, List.foldl_nil]
      exact writeBytes_outside _ _ _ _ (Or.inr (by
        rw [hml]
        have : SAFELOADER_PREAMBLE_SIZE = 0x14 := rfl
        omega))
    have htail : extract (foldWrites (pre ++ [(4, m)])) SAFELOADER_PREAMBLE_SIZE
        (E - SAFELOADER_PREAMBLE_SIZE) =
        extract (foldWrites pre) SAFELOADER_PREAMBLE_SIZE
        (E - SAFELOADER_PREAMBLE_SIZE) :=
      extract_congr _ _ _ _ (fun j _ => hshift _ (Nat.le_add_right _ _))
    have hmid : ∀ j, j < m.length →
        foldWrites (pre ++ [(4, m)]) (4 + j) = m.getD j 0 := by
      intro j hj
      have hc := foldl_writes_cover pre [] 4 m (fun _ => 0xff) (4 + j)
        (fun w hw => absurd hw (List.not_mem_nil w))
        (Nat.le_add_right _ _) (by omega)
      rw [show 4 + j - 4 = j by omega] at hc
      exact hc
    have hd16 : extract (foldWrites (pre ++ [(4, m)])) 4 16 = m := by
      have he := (extract_eq_iff (foldWrites (pre ++ [(4, m)])) 4 m).mpr hmid
      rw [hml] at he
      exact he
    refine ⟨rfl, ?_, ?_, ?_⟩
    · rw [h2, be32val_be32 _ (Nat.mod_lt _ (by decide)), Nat.mod_eq_of_lt hlen]
    · rw [hd16, htail]
    · intro i h
      exact foldl_writes_outside _ _ _ h

/-- C1 (witness): a one-partition factory build has total length
0x1014 + 0x800 + 1. -/
theorem C1_witness :
    ((generate_factory_image (fun _ => List.replicate 16 0) none
        [⟨str "os-image", 0, 0x100⟩] [⟨str "os-image", [0xAA]⟩]).getD (0, [])).1 =
      SAFELOADER_PAYLOAD_OFFSET + SAFELOADER_PAYLOAD_TABLE_SIZE +
        (([⟨str "os-image", [0xAA]⟩] : List ImgPart).map
          (fun p => p.data.length)).sum :=
  (C1_factory_image (fun _ => List.replicate 16 0) none
      [⟨str "os-image", 0, 0x100⟩] [⟨str "os-image", [0xAA]⟩]
      ((generate_factory_image (fun _ => List.replicate 16 0) none
        [⟨str "os-image", 0, 0x100⟩] [⟨str "os-image", [0xAA]⟩]).getD (0, [])).1
      ((generate_factory_image (fun _ => List.replicate 16 0) none
        [⟨str "os-image", 0, 0x100⟩] [⟨str "os-image", [0xAA]⟩]).getD (0, [])).2
      rfl (by decide) (fun x => rfl)).1

theorem sysupgradeWrites_spec (flash : List FlashEntry) (parts : List ImgPart)
    (fb : Nat) :
    ∀ (idxs : List Nat) (ws : List (Nat × List Nat)),
    sysupgradeWrites flash parts fb idxs = some ws →
    ((∀ i ∈ idxs, ∀ p,
        parts.find? (fun q => q.name = (flash.getD i ⟨[], 0, 0⟩).name) = some p →
        p.data.length ≤ (flash.getD i ⟨[], 0, 0⟩).size ∧
        (wrapSub (flash.getD i ⟨[], 0, 0⟩).base fb, p.data) ∈ ws) ∧
     (∀ w ∈ ws, ∃ i, i ∈ idxs ∧ ∃ p,
        parts.find? (fun q => q.name = (flash.getD i ⟨[], 0, 0⟩).name) = some p ∧
        w = (wrapSub (flash.getD i ⟨[], 0, 0⟩).base fb, p.data)))
  | [], ws, h => by
    injection h with h
    subst h
    exact ⟨fun i hi => absurd hi (List.not_mem_nil i),
      fun w hw => absurd hw (List.not_mem_nil w)⟩
  | i :: is, ws, h => by
    unfold sysupgradeWrites at h
    dsimp only at h
    cases hf : parts.find? (fun q => q.name = (flash.getD i ⟨[], 0, 0⟩).name) with
    | none =>
      rw [hf] at h
      obtain ⟨h1, h2⟩ := sysupgradeWrites_spec flash parts fb is ws h
      refine ⟨?_, ?_⟩
      · intro j hj p hp
        rcases List.mem_cons.mp hj with rfl | hj
        · rw [hp] at hf; cases hf
        · exact h1 j hj p hp
      · intro w hw
        obtain ⟨j, hj, hp⟩ := h2 w hw
        exact ⟨j, List.mem_cons_of_mem _ hj, hp⟩
    | some p =>
      rw [hf] at h
      dsimp only at h
      by_cases hsz : p.data.length > (flash.getD i ⟨[], 0, 0⟩).size
      · rw [if_pos hsz] at h; cases h
      · rw [if_neg hsz] at h
        cases hr : sysupgradeWrites flash parts fb is with
        | none => rw [hr, Option.map_none'] at h; cases h
        | some tl =>
          rw [hr, Option.map_some'] at h
          injection h with h
          subst h
          obtain ⟨h1, h2⟩ := sysupgradeWrites_spec flash parts fb is tl hr
          refine ⟨?_, ?_⟩
          · intro j hj q hq
            rcases List.mem_cons.mp hj with rfl | hj
            · rw [hq] at hf
              injection hf with hf
              subst hf
              exact ⟨Nat.le_of_not_lt hsz, List.mem_cons_self _ _⟩
            · obtain ⟨ha, hb⟩ := h1 j hj q hq
              exact ⟨ha, List.mem_cons_of_mem _ hb⟩
          · intro w hw
            rcases List.mem_cons.mp hw with rfl | hw
            · exact ⟨i, List.mem_cons_self _ _, p, hf, rfl⟩
            · obtain ⟨j, hj, hp⟩ := h2 w hw
              exact ⟨j, List.mem_cons_of_mem _ hj, hp⟩

/-- C8: sysupgrade assembly yields length last.base - first.base +
size of the last built partition (32-bit subtraction); every flash
partition index between first and last inclusive whose name matches a
built partition has that partition's content within the slot size
(overflow is fatal) and contributes the write of its bytes at offset
base - first.base; those are the only writes; and every byte outside all
writes is 0xFF. -/
theorem C8_sysupgrade (info : DeviceInfo) (parts : List ImgPart)
    (fi li : Nat) (lastPart : ImgPart) (len : Nat) (ws : List (Nat × List Nat))
    (hfind : sysFind info.partitions info.first_sysupgrade_partition
      info.last_sysupgrade_partition = (some fi, some li))
    (hfl : fi < li)
    (hlast : parts.find? (fun p => p.name = info.last_sysupgrade_partition) =
      some lastPart)
    (hgen : generate_sysupgrade_image info parts = some (len, ws)) :
    len = wrapSub (info.partitions.getD li ⟨[], 0, 0⟩).base
        (info.partitions.getD fi ⟨[], 0, 0⟩).base + lastPart.data.length ∧
    (∀ i ∈ List.range' fi (li - fi + 1), ∀ p,
      parts.find? (fun q => q.name = (info.partitions.getD i ⟨[], 0, 0⟩).name) =
        some p →
      p.data.length ≤ (info.partitions.getD i ⟨[], 0, 0⟩).size ∧
      (wrapSub (info.partitions.getD i ⟨[], 0, 0⟩).base
        (info.partitions.getD fi ⟨[], 0, 0⟩).base, p.data) ∈ ws) ∧
    (∀ w ∈ ws, ∃ i, i ∈ List.range' fi (li - fi + 1) ∧ ∃ p,
      parts.find? (fun q => q.name = (info.partitions.getD i ⟨[], 0, 0⟩).name) =
        some p ∧
      w = (wrapSub (info.partitions.getD i ⟨[], 0, 0⟩).base
        (info.partitions.getD fi ⟨[], 0, 0⟩).base, p.data)) ∧
    (∀ j, (∀ w ∈ ws, j < w.1 ∨ w.1 + w.2.length ≤ j) → foldWrites ws j = 0xff) := by
  unfold generate_sysupgrade_image at hgen
  rw [hfind] at hgen
  dsimp only at hgen
  rw [if_pos hfl, hlast] at hgen
  dsimp only at hgen
  cases hr : sysupgradeWrites info.partitions parts
      (info.partitions.getD fi ⟨[], 0, 0⟩).base (List.range' fi (li - fi + 1)) with
  | none => rw [hr, Option.map_none'] at hgen; cases hgen
  | some tl =>
    rw [hr, Option.map_some'] at hgen
    injection hgen with hgen
    rw [Prod.mk.injEq] at hgen
    obtain ⟨hlen, hws⟩ := hgen
    subst hws
    obtain ⟨h1, h2⟩ := sysupgradeWrites_spec info.partitions parts _ _ _ hr
    exact ⟨hlen.symm, h1, h2, fun j h => foldl_writes_outside _ _ _ h⟩

/-- C8 (witness): a two-partition profile (os-image at 0x00 size 0x10,
file-system at 0x10 size 0x10) with built contents [1,2] and [3] yields
a sysupgrade image of length 0x10 - 0x00 + 1 = 17. -/
theorem C8_witness : (17 : Nat) = wrapSub 0x10 0 + 1 :=
  (C8_sysupgrade
    ⟨[], none, [], 0x100, SoftVer.text [], 0,
      [⟨str "os-image", 0x00, 0x10⟩, ⟨str "file-system", 0x10, 0x10⟩],
      str "os-image", str "file-system", {}⟩
    [⟨str "os-image", [1, 2]⟩, ⟨str "file-system", [3]⟩]
    0 1 ⟨str "file-system", [3]⟩ 17 [(0, [1, 2]), (0x10, [3])]
    (by decide) (by decide) (by decide) (by decide)).1

theorem msv_const (info : DeviceInfo) (rev v n₁ n₂ : Nat) :
    make_soft_version info rev (some v) n₁ = make_soft_version info rev (some v) n₂ := by
  unfold make_soft_version
  cases info.soft_ver <;> rfl

theorem drop12_take4 (B : List Nat) (hB : B.length = 4)
    (x a b c b1 b2 b3 b4 : Nat) (rest : List Nat) :
    ((B ++ [0, 0, 0, 0] ++ [x, a, b, c, b1, b2, b3, b4] ++ rest).drop 12).take 4 =
      [b1, b2, b3, b4] := by
  have hre : B ++ [0, 0, 0, 0] ++ [x, a, b, c, b1, b2, b3, b4] ++ rest =
      (B ++ [0, 0, 0, 0] ++ [x, a, b, c]) ++ ([b1, b2, b3, b4] ++ rest) := by
    simp [List.append_assoc]
  rw [hre, drop_len_append (B ++ [0, 0, 0, 0] ++ [x, a, b, c])
    ([b1, b2, b3, b4] ++ rest) 12 (by simp [List.length_append, hB]),
    show (4 : Nat) = [b1, b2, b3, b4].length from rfl, List.take_left]

theorem msv_num_date (info : DeviceInfo) (rev v now : Nat) (major minor patch : Nat)
    (hsv : info.soft_ver = SoftVer.num major minor patch) :
    ((make_soft_version info rev (some v) now).data.drop 12).take 4 =
      [bcd ((1900 + ((civilFromDays (v / 86400)).1 - 1900)) / 100),
       bcd (((civilFromDays (v / 86400)).1 - 1900) % 100),
       bcd (((civilFromDays (v / 86400)).2.1 - 1) + 1),
       bcd ((civilFromDays (v / 86400)).2.2)] := by
  unfold make_soft_version
  rw [hsv]
  dsimp only
  by_cases hc : info.soft_ver_compat_level = 0
  · rw [if_pos hc]
    unfold init_meta_partition_entry
    dsimp only
    rw [show ([0xff, major % 256, minor % 256, patch % 256,
        bcd ((1900 + ((civilFromDays (v / 86400)).1 - 1900)) / 100),
        bcd (((civilFromDays (v / 86400)).1 - 1900) % 100),
        bcd (((civilFromDays (v / 86400)).2.1 - 1) + 1),
        bcd ((civilFromDays (v / 86400)).2.2)] ++
        be32 (rev % 2 ^ 32) ++ be32 (info.soft_ver_compat_level % 2 ^ 32)).take 12 =
        [0xff, major % 256, minor % 256, patch % 256,
         bcd ((1900 + ((civilFromDays (v / 86400)).1 - 1900)) / 100),
         bcd (((civilFromDays (v / 86400)).1 - 1900) % 100),
         bcd (((civilFromDays (v / 86400)).2.1 - 1) + 1),
         bcd ((civilFromDays (v / 86400)).2.2)] ++
        (be32 (rev % 2 ^ 32) ++ be32 (info.soft_ver_compat_level % 2 ^ 32)).take 4
      from by
        rw [show (12 : Nat) = [0xff, major % 256, minor % 256, patch % 256,
          bcd ((1900 + ((civilFromDays (v / 86400)).1 - 1900)) / 100),
          bcd (((civilFromDays (v / 86400)).1 - 1900) % 100),
          bcd (((civilFromDays (v / 86400)).2.1 - 1) + 1),
          bcd ((civilFromDays (v / 86400)).2.2)].length + 4 from rfl,
          List.append_assoc, List.take_append]]
    rw [List.append_assoc]
    exact drop12_take4 (be32 _) (be32_length _) _ _ _ _ _ _ _ _ _
  · rw [if_neg hc]
    unfold init_meta_partition_entry
    dsimp only
    rw [List.append_assoc _ _ (if meta_partition_should_pad info.part_trail
      then [info.part_trail % 256] else [])]
    exact drop12_take4 (be32 _) (be32_length _) _ _ _ _ _ _ _ _ _

/-- C9: with the source-date-epoch override set, build_image is
independent of the wall clock, and the numeric soft-version record's
date bytes (offsets 12..15 of the meta partition data) are the BCD
century, year, month and day of the override value's UTC civil date. -/
theorem C9_reproducible (digest : List Nat → List Nat) (info : DeviceInfo)
    (kernel rootfs : List Nat) (rev : Nat) (add_jffs2_eof sysupgrade : Bool)
    (v now₁ now₂ : Nat) (major minor patch : Nat)
    (hsv : info.soft_ver = SoftVer.num major minor patch) :
    build_image digest info kernel rootfs rev add_jffs2_eof sysupgrade
        (some v) now₁ =
      build_image digest info kernel rootfs rev add_jffs2_eof sysupgrade
        (some v) now₂ ∧
    ((make_soft_version info rev (some v) now₁).data.drop 12).take 4 =
      [bcd ((1900 + ((civilFromDays (v / 86400)).1 - 1900)) / 100),
       bcd (((civilFromDays (v / 86400)).1 - 1900) % 100),
       bcd (((civilFromDays (v / 86400)).2.1 - 1) + 1),
       bcd ((civilFromDays (v / 86400)).2.2)] := by
  refine ⟨?_, msv_num_date info rev v now₁ major minor patch hsv⟩
  unfold build_image
  rw [msv_const info rev v now₁ now₂]

/-- C9 (witness): with override 1609459200 (2021-01-01 UTC) the build is
clock-independent and the date bytes are BCD 20 21 01 01. -/
theorem C9_witness :
    build_image (fun _ => List.replicate 16 0)
      { id := [], vendor := none, support_list := [], part_trail := 0x100,
        soft_ver := SoftVer.num 1 0 0, soft_ver_compat_level := 0,
        partitions := [], first_sysupgrade_partition := str "os-image",
        last_sysupgrade_partition := str "file-system" }
      [1] [2] 7 false false (some 1609459200) 0 =
    build_image (fun _ => List.replicate 16 0)
      { id := [], vendor := none, support_list := [], part_trail := 0x100,
        soft_ver := SoftVer.num 1 0 0, soft_ver_compat_level := 0,
        partitions := [], first_sysupgrade_partition := str "os-image",
        last_sysupgrade_partition := str "file-system" }
      [1] [2] 7 false false (some 1609459200) 999 ∧
    ((make_soft_version
      { id := [], vendor := none, support_list := [], part_trail := 0x100,
        soft_ver := SoftVer.num 1 0 0, soft_ver_compat_level := 0,
        partitions := [], first_sysupgrade_partition := str "os-image",
        last_sysupgrade_partition := str "file-system" }
      7 (some 1609459200) 0).data.drop 12).take 4 = [0x20, 0x21, 0x01, 0x01] :=
  C9_reproducible (fun _ => List.replicate 16 0)
    { id := [], vendor := none, support_list := [], part_trail := 0x100,
      soft_ver := SoftVer.num 1 0 0, soft_ver_compat_level := 0,
      partitions := [], first_sysupgrade_partition := str "os-image",
      last_sysupgrade_partition := str "file-system" }
    [1] [2] 7 false false 1609459200 0 999 1 0 0 rfl

theorem parseEntry_flashLine (nm : List Nat) (b s : Nat) (t : List Nat)
    (hlen : nm.length ≤ 31) (hsp : 0x20 ∉ nm) (hlf : 0x0a ∉ nm) (hz : 0 ∉ nm) :
    parseEntry (flashLine nm b s ++ t) =
      .entry nm b s (26 + nm.length + (hex5 b).length + (hex5 s).length) := by
  have hb5 := hex5_length_ge b
  have hs5 := hex5_length_ge s
  set n := nm.length with hn
  set hb := (hex5 b).length with hhb
  set hs := (hex5 s).length with hhs
  set np := 26 + n + hb + hs with hnp_def
  set S4 : List Nat :=
    str "size" ++ 0x20 :: (0x30 :: 0x78 :: (hex5 s ++ 0x0a :: t)) with hS4
  set S2 : List Nat :=
    str "base" ++ 0x20 :: (0x30 :: 0x78 :: (hex5 b ++ 0x20 :: S4)) with hS2
  set rest := flashLine nm b s ++ t with hrest
  have e1 : str "partition " = str "partition" ++ [0x20] := by decide
  have e2 : str " base 0x" = 0x20 :: (str "base" ++ 0x20 :: [0x30, 0x78]) := by decide
  have e3 : str " size 0x" = 0x20 :: (str "size" ++ 0x20 :: [0x30, 0x78]) := by decide
  have hcan : rest = str "partition" ++ 0x20 :: (nm ++ 0x20 :: S2) := by
    rw [hrest]
    unfold flashLine
    rw [e1, e2, e3, hS2, hS4]
    simp [List.append_assoc]
  have d10 : rest.drop 10 = nm ++ 0x20 :: S2 := by
    rw [hcan]
    exact drop_through _ _ _ _ (by decide)
  have d11 : rest.drop (11 + n) = S2 := by
    rw [drop_chain rest 10 (11 + n) _ d10 (by omega)]
    exact drop_through _ _ _ _ (by omega)
  have d16 : rest.drop (16 + n) = 0x30 :: 0x78 :: (hex5 b ++ 0x20 :: S4) := by
    rw [drop_chain rest (11 + n) (16 + n) _ d11 (by omega), hS2,
      show 16 + n - (11 + n) = 5 by omega]
    rw [drop_through _ _ _ _ (by decide)]
  have d18 : rest.drop (18 + n) = hex5 b ++ 0x20 :: S4 := by
    rw [drop_chain rest (16 + n) (18 + n) _ d16 (by omega),
      show 18 + n - (16 + n) = 2 by omega]
    rfl
  have d19 : rest.drop (19 + n + hb) = S4 := by
    rw [drop_chain rest (18 + n) (19 + n + hb) _ d18 (by omega)]
    exact drop_through _ _ _ _ (by omega)
  have d24 : rest.drop (24 + n + hb) = 0x30 :: 0x78 :: (hex5 s ++ 0x0a :: t) := by
    rw [drop_chain rest (19 + n + hb) (24 + n + hb) _ d19 (by omega), hS4,
      show 24 + n + hb - (19 + n + hb) = 5 by omega]
    rw [drop_through _ _ _ _ (by decide)]
  set P : List Nat := str "partition" ++ [0x20] ++ nm ++ [0x20] ++ str "base" ++
      [0x20] ++ [0x30, 0x78] ++ hex5 b ++ [0x20] ++ str "size" ++ [0x20] ++
      [0x30, 0x78] ++ hex5 s with hP
  have hrest_nl : rest = P ++ 0x0a :: t := by
    rw [hcan, hS2, hS4, hP]
    simp [List.append_assoc]
  have hnl_len : P.length = np := by
    rw [hP]
    simp only [List.length_append, hnp_def,
      show (str "partition").length = 9 by decide,
      show (str "base").length = 4 by decide,
      show (str "size").length = 4 by decide,
      show ([0x30, 0x78] : List Nat).length = 2 by decide,
      show ([0x20] : List Nat).length = 1 by decide]
    omega
  have hnl_mem : (0x0a : Nat) ∉ P := by
    rw [hP]
    intro hmem
    simp only [List.mem_append] at hmem
    rcases hmem with (((((((((((h | h) | h) | h) | h) | h) | h) | h) | h) | h) | h) |
        h) | h
    · exact absurd h (by decide)
    · exact absurd h (by decide)
    · exact hlf h
    · exact absurd h (by decide)
    · exact absurd h (by decide)
    · exact absurd h (by decide)
    · exact absurd h (by decide)
    · exact (hex5_not_special b _ h).1 rfl
    · exact absurd h (by decide)
    · exact absurd h (by decide)
    · exact absurd h (by decide)
    · exact absurd h (by decide)
    · exact (hex5_not_special s _ h).1 rfl
  have hrl : rest.length = np + (0x0a :: t).length := by
    rw [hrest_nl, List.length_append, hnl_len]
  have hnp : memchr rest 0 rest.length 0x0a = some np := by
    have := memchr_found rest 0 rest.length 0x0a _ _
      (by rw [List.drop_zero]; exact hrest_nl) hnl_mem
      (by rw [hnl_len, hrl]; simp [List.length_cons])
    rw [this, hnl_len, Nat.zero_add]
  have he0 : memchr rest 0 np 0x20 = some 9 := by
    have := memchr_found rest 0 np 0x20 (str "partition") (nm ++ 0x20 :: S2)
      (by rw [List.drop_zero]; exact hcan) (by decide)
      (by rw [show (str "partition").length = 9 by decide]; omega)
    rw [this, show (str "partition").length = 9 by decide]
  have he1 : memchr rest 10 np 0x20 = some (10 + n) := by
    exact memchr_found rest 10 np 0x20 nm S2 d10 hsp (by omega)
  have he2 : memchr rest (11 + n) np 0x20 = some (15 + n) := by
    have := memchr_found rest (11 + n) np 0x20 (str "base")
      (0x30 :: 0x78 :: (hex5 b ++ 0x20 :: S4)) (by rw [d11, hS2]) (by decide)
      (by rw [show (str "base").length = 4 by decide]; omega)
    rw [this, show (str "base").length = 4 by decide, show 11 + n + 4 = 15 + n by omega]
  have he3 : memchr rest (16 + n) np 0x20 = some (18 + n + hb) := by
    have := memchr_found rest (16 + n) np 0x20 (0x30 :: 0x78 :: hex5 b) S4
      (by rw [d16]; simp) (by
        intro hm
        rcases List.mem_cons.mp hm with h | hm
        · omega
        rcases List.mem_cons.mp hm with h | hm
        · omega
        · exact (hex5_not_special b _ hm).2.1 rfl)
      (by simp only [List.length_cons]; omega)
    have hpl : (0x30 :: 0x78 :: hex5 b).length = 2 + hb := by
      simp only [List.length_cons]
      omega
    rw [hpl, show 16 + n + (2 + hb) = 18 + n + hb by omega] at this
    exact this
  have he4 : memchr rest (19 + n + hb) np 0x20 = some (23 + n + hb) := by
    have := memchr_found rest (19 + n + hb) np 0x20 (str "size")
      (0x30 :: 0x78 :: (hex5 s ++ 0x0a :: t)) (by rw [d19, hS4])
      (by decide) (by rw [show (str "size").length = 4 by decide]; omega)
    rw [this, show (str "size").length = 4 by decide,
      show 19 + n + hb + 4 = 23 + n + hb by omega]
  have hbase : strtoul16 (rest.drop (16 + n)) = b := by
    rw [d16]
    exact strtoul16_hex5 b (0x20 :: S4) (by intro b' h; injection h with h; subst h; decide)
  have hsize : strtoul16 (rest.drop (24 + n + hb)) = s := by
    rw [d24]
    exact strtoul16_hex5 s (0x0a :: t)
      (by intro b' h; injection h with h; subst h; decide)
  have hname : ((rest.drop 10).take (min 31 (10 + n - 10))).takeWhile (· ≠ 0) = nm := by
    rw [d10, show 10 + n - 10 = nm.length by omega, Nat.min_eq_right hlen, List.take_left,
      takeWhile_ne_zero nm (fun b hb0 => by rintro rfl; exact hz hb0)]
  unfold parseEntry
  rw [hnp]
  dsimp only
  rw [if_neg (show ¬np ≤ 0 by omega), he0]
  dsimp only
  rw [show (9 : Nat) + 1 = 10 from rfl, if_neg (show ¬np ≤ 10 by omega), he1]
  dsimp only
  rw [hname, show 10 + n + 1 = 11 + n by omega, if_neg (show ¬np ≤ 11 + n by omega), he2]
  dsimp only
  rw [show 15 + n + 1 = 16 + n by omega, if_neg (show ¬np ≤ 16 + n by omega), hbase, he3]
  dsimp only
  rw [show 18 + n + hb + 1 = 19 + n + hb by omega,
    if_neg (show ¬np ≤ 19 + n + hb by omega), he4]
  dsimp only
  rw [show 23 + n + hb + 1 = 24 + n + hb by omega, hsize]

theorem flashLine_length (nm : List Nat) (b s : Nat) :
    (flashLine nm b s).length = 27 + nm.length + (hex5 b).length + (hex5 s).length := by
  unfold flashLine
  simp only [List.length_append, show (str "partition ").length = 10 by decide,
    show (str " base 0x").length = 8 by decide, show (str " size 0x").length = 8 by decide,
    show ([0x0a] : List Nat).length = 1 by decide]
  omega

theorem flash_hdr_starts (nm : List Nat) (b s : Nat) (X : List Nat) :
    (str "partition").isPrefixOf (flashLine nm b s ++ X) = true := by
  have h : flashLine nm b s ++ X = str "partition" ++
      ([0x20] ++ (nm ++ (str " base 0x" ++ (hex5 b ++ (str " size 0x" ++
        (hex5 s ++ ([0x0a] ++ X))))))) := by
    unfold flashLine
    rw [show str "partition " = str "partition" ++ [0x20] by decide]
    simp [List.append_assoc]
  rw [h]
  exact isPrefixOf_append_self _ _

theorem readLoop_flash_stop (fuel : Nat) (junk : List Nat) (acc : List FlashEntry) :
    readLoop (str "partition") fuel (0 :: junk) acc = some acc := by
  cases fuel with
  | zero => rfl
  | succ fuel =>
    rw [readLoop, if_neg]
    intro hcond
    have h2 := hcond.2
    rw [show str "partition" = 0x70 :: str "artition" by decide] at h2
    simp [List.isPrefixOf] at h2

theorem readLoop_flashLines (ps : List FlashEntry) (fuel : Nat)
    (acc : List FlashEntry) (junk : List Nat)
    (hval : ∀ e ∈ ps, e.name.length ≤ 31 ∧ 0x20 ∉ e.name ∧ 0x0a ∉ e.name ∧
      0 ∉ e.name ∧ e.base < 2 ^ 32 ∧ e.size < 2 ^ 32)
    (hcount : acc.length + ps.length ≤ 32) (hfuel : ps.length < fuel) :
    readLoop (str "partition") fuel (flashLines ps ++ 0 :: junk) acc =
      some (acc ++ ps) := by
  induction ps generalizing acc fuel with
  | nil => simpa using readLoop_flash_stop fuel junk acc
  | cons e ts ih =>
    obtain ⟨fuel, rfl⟩ : ∃ f, fuel = f + 1 := by
      cases fuel with
      | zero => omega
      | succ f => exact ⟨f, rfl⟩
    obtain ⟨nm, b, s⟩ := e
    obtain ⟨hlen, hsp, hlf, hz, hblt, hslt⟩ := hval _ (List.mem_cons_self _ _)
    have hmb : b % 2 ^ 32 = b := Nat.mod_eq_of_lt hblt
    have hms : s % 2 ^ 32 = s := Nat.mod_eq_of_lt hslt
    have hshape : flashLines (⟨nm, b, s⟩ :: ts) ++ 0 :: junk =
        flashLine nm b s ++ (flashLines ts ++ 0 :: junk) := by
      show flashLine nm (b % 2 ^ 32) (s % 2 ^ 32) ++ flashLines ts ++ 0 :: junk = _
      rw [hmb, hms, List.append_assoc]
    rw [hshape, readLoop, if_pos]
    · rw [parseEntry_flashLine nm b s _ hlen hsp hlf hz]
      dsimp only
      rw [if_neg (show ¬(acc.length ≥ MAX_PARTITIONS) by
        simp only [List.length_cons] at hcount
        unfold MAX_PARTITIONS
        omega)]
      have hdrop : (flashLine nm b s ++ (flashLines ts ++ 0 :: junk)).drop
          (26 + nm.length + (hex5 b).length + (hex5 s).length + 1) =
          flashLines ts ++ 0 :: junk := by
        apply drop_len_append
        rw [flashLine_length]
        omega
      rw [hdrop, hmb, hms,
        ih fuel (acc ++ [({ name := nm, base := b, size := s } : FlashEntry)])
          (fun x hx => hval x (List.mem_cons_of_mem _ hx))
          (by simp only [List.length_append, List.length_cons, List.length_nil] at *
              omega)
          (by simp only [List.length_cons] at hfuel; omega)]
      simp
    · constructor
      · rw [List.length_append, flashLine_length,
          show (str "partition").length = 9 by decide]
        omega
      · exact flash_hdr_starts nm b s _

theorem flashLines_cons_shape (nm : List Nat) (b s : Nat) (ts : List FlashEntry)
    (X : List Nat) :
    flashLines (⟨nm, b, s⟩ :: ts) ++ X =
      flashLine nm (b % 2 ^ 32) (s % 2 ^ 32) ++ (flashLines ts ++ X) := by
  show flashLine nm (b % 2 ^ 32) (s % 2 ^ 32) ++ flashLines ts ++ X = _
  rw [List.append_assoc]

theorem read_partition_table_fwupLines (e : List Nat × Nat × Nat)
    (ts : List (List Nat × Nat × Nat)) (junk : List Nat)
    (hval : ∀ x ∈ e :: ts, x.1.length ≤ 31 ∧ 0x20 ∉ x.1 ∧ 0x0a ∉ x.1 ∧ 0 ∉ x.1 ∧
      x.2.1 < 2 ^ 32 ∧ x.2.2 < 2 ^ 32)
    (hcount : (e :: ts).length ≤ 32)
    (hfit : (fwupLines (e :: ts)).length + 2 ≤ SAFELOADER_PAYLOAD_TABLE_SIZE)
    (hjlen : (fwupLines (e :: ts)).length + 1 + junk.length =
      SAFELOADER_PAYLOAD_TABLE_SIZE) :
    read_partition_table (str "fwup-ptn") (fwupLines (e :: ts) ++ 0 :: junk) =
      some (true, (e :: ts).map (fun x => (⟨x.1, x.2.1, x.2.2⟩ : FlashEntry))) := by
  have h8 : SAFELOADER_PAYLOAD_TABLE_SIZE = 0x800 := rfl
  have hset : (fwupLines (e :: ts) ++ 0 :: junk).set
      (SAFELOADER_PAYLOAD_TABLE_SIZE - 1) 0 =
      fwupLines (e :: ts) ++ 0 ::
        junk.set (SAFELOADER_PAYLOAD_TABLE_SIZE - 2 - (fwupLines (e :: ts)).length) 0 := by
    rw [set_append_right _ _ _ _ (by omega)]
    congr 1
    rw [show SAFELOADER_PAYLOAD_TABLE_SIZE - 1 - (fwupLines (e :: ts)).length =
      (SAFELOADER_PAYLOAD_TABLE_SIZE - 2 - (fwupLines (e :: ts)).length) + 1 by omega,
      List.set_cons_succ]
  obtain ⟨nm, b, s⟩ := e
  unfold read_partition_table
  rw [hset, fwupLines_cons_shape nm b s ts _,
    if_pos (fwup_hdr_starts nm (b % 2 ^ 32) (s % 2 ^ 32) _),
    ← fwupLines_cons_shape nm b s ts _]
  rw [readLoop_fwupLines ((nm, b, s) :: ts) _ [] _ hval (by simpa using hcount)
    (by simp only [List.length_append, List.length_cons, List.length_set]
        simp only [List.length_cons] at hcount
        omega)]
  simp

theorem read_partition_table_flashLines (e : FlashEntry)
    (ts : List FlashEntry) (junk : List Nat)
    (hval : ∀ x ∈ e :: ts, x.name.length ≤ 31 ∧ 0x20 ∉ x.name ∧ 0x0a ∉ x.name ∧
      0 ∉ x.name ∧ x.base < 2 ^ 32 ∧ x.size < 2 ^ 32)
    (hcount : (e :: ts).length ≤ 32)
    (hfit : (flashLines (e :: ts)).length + 2 ≤ SAFELOADER_PAYLOAD_TABLE_SIZE)
    (hjlen : (flashLines (e :: ts)).length + 1 + junk.length =
      SAFELOADER_PAYLOAD_TABLE_SIZE) :
    read_partition_table (str "partition") (flashLines (e :: ts) ++ 0 :: junk) =
      some (true, e :: ts) := by
  have h8 : SAFELOADER_PAYLOAD_TABLE_SIZE = 0x800 := rfl
  have hset : (flashLines (e :: ts) ++ 0 :: junk).set
      (SAFELOADER_PAYLOAD_TABLE_SIZE - 1) 0 =
      flashLines (e :: ts) ++ 0 ::
        junk.set (SAFELOADER_PAYLOAD_TABLE_SIZE - 2 - (flashLines (e :: ts)).length) 0 := by
    rw [set_append_right _ _ _ _ (by omega)]
    congr 1
    rw [show SAFELOADER_PAYLOAD_TABLE_SIZE - 1 - (flashLines (e :: ts)).length =
      (SAFELOADER_PAYLOAD_TABLE_SIZE - 2 - (flashLines (e :: ts)).length) + 1 by omega,
      List.set_cons_succ]
  obtain ⟨nm, b, s⟩ := e
  unfold read_partition_table
  rw [hset, flashLines_cons_shape nm b s ts _,
    if_pos (flash_hdr_starts nm (b % 2 ^ 32) (s % 2 ^ 32) _),
    ← flashLines_cons_shape nm b s ts _]
  rw [readLoop_flashLines (⟨nm, b, s⟩ :: ts) _ [] _ hval (by simpa using hcount)
    (by simp only [List.length_append, List.length_cons, List.length_set]
        simp only [List.length_cons] at hcount
        omega)]
  simp

theorem c10Image_length : c10Image.length = 0x201C := by
  unfold c10Image
  simp only [List.length_append, List.length_cons, List.length_nil,
    List.length_replicate,
    show (fwupLines [(str "os-image", 0x800, 2), (str "file-system", 0x802, 2),
      (str "partition-table", 0x804, 0x800)]).length = 148 from by decide,
    show (flashLines [⟨str "os-image", 0x800, 1⟩,
      ⟨str "file-system", 0x900, 1⟩]).length = 93 from by decide]

theorem c10_fwreg_length :
    (fwupLines [(str "os-image", 0x800, 2), (str "file-system", 0x802, 2),
        (str "partition-table", 0x804, 0x800)] ++
      0 :: List.replicate 1899 0xff).length = 0x800 := by
  simp only [List.length_append, List.length_cons, List.length_replicate,
    show (fwupLines [(str "os-image", 0x800, 2), (str "file-system", 0x802, 2),
      (str "partition-table", 0x804, 0x800)]).length = 148 from by decide]

theorem c10_parse : safeloader_parse_image c10Image =
    some (SafeloaderType.DEFAULT, 0x1014,
      [⟨str "os-image", 0x800, 2⟩, ⟨str "file-system", 0x802, 2⟩,
       ⟨str "partition-table", 0x804, 0x800⟩]) := by
  have hIL := c10Image_length
  have hbuf : (c10Image.drop SAFELOADER_PREAMBLE_SIZE).take 64 =
      List.replicate 64 0xff := by
    unfold c10Image
    rw [drop_len_append _ _ _ (by rw [List.length_replicate]; rfl),
      List.take_append_of_le_length (by rw [List.length_replicate]; omega),
      List.take_replicate]
    rfl
  have hfwreg : (c10Image.drop SAFELOADER_PAYLOAD_OFFSET).take
      SAFELOADER_PAYLOAD_TABLE_SIZE =
      fwupLines [(str "os-image", 0x800, 2), (str "file-system", 0x802, 2),
        (str "partition-table", 0x804, 0x800)] ++ 0 :: List.replicate 1899 0xff := by
    unfold c10Image
    rw [drop_more_append _ _ _ (by rw [List.length_replicate]; decide),
      List.length_replicate,
      drop_len_append _ _ _ (by rw [List.length_replicate]; rfl),
      List.take_append_of_le_length (by rw [c10_fwreg_length]; decide)]
    exact List.take_of_length_le (by rw [c10_fwreg_length]; decide)
  unfold safeloader_parse_image
  rw [if_neg (by rw [hIL]; decide)]
  dsimp only
  have hqn : ¬((str "?NEW").isPrefixOf (List.replicate 64 0xff) = true) := by decide
  have hcl : ¬((str "fw-type:Cloud").isPrefixOf (List.replicate 64 0xff) = true) := by
    decide
  have hbe : ¬(be32val (List.replicate 64 0xff) ≤ SAFELOADER_HEADER_SIZE) := by decide
  rw [hbuf, if_neg hqn, if_neg hcl, if_neg hbe]
  dsimp only
  rw [if_neg (by rw [hIL]; decide), hfwreg,
    read_partition_table_fwupLines (str "os-image", 0x800, 2)
      [(str "file-system", 0x802, 2), (str "partition-table", 0x804, 0x800)]
      (List.replicate 1899 0xff)
      (by decide) (by decide)
      (by rw [show (fwupLines [(str "os-image", 0x800, 2), (str "file-system", 0x802, 2),
            (str "partition-table", 0x804, 0x800)]).length = 148 from by decide]
          decide)
      (by rw [show (fwupLines [(str "os-image", 0x800, 2), (str "file-system", 0x802, 2),
            (str "partition-table", 0x804, 0x800)]).length = 148 from by decide,
          List.length_replicate]
          decide)]
  rfl

theorem c10_entries : convertEntries c10Image =
    some (0x1014, ⟨str "os-image", 0x800, 2⟩, ⟨str "file-system", 0x802, 2⟩,
      ⟨str "partition-table", 0x804, 0x800⟩, ⟨str "os-image", 0x800, 1⟩,
      ⟨str "file-system", 0x900, 1⟩) := by
  have hIL := c10Image_length
  have hFL : (flashLines [⟨str "os-image", 0x800, 1⟩,
      ⟨str "file-system", 0x900, 1⟩]).length = 93 := by decide
  have hflreg : (c10Image.drop (0x1014 + 0x804 + 4)).take
      SAFELOADER_PAYLOAD_TABLE_SIZE =
      flashLines [⟨str "os-image", 0x800, 1⟩, ⟨str "file-system", 0x900, 1⟩] ++
        0 :: (List.replicate 1950 0xff ++ List.replicate 4 0xff) := by
    unfold c10Image
    rw [drop_more_append _ _ _ (by rw [List.length_replicate]; decide),
      List.length_replicate,
      drop_more_append _ _ _ (by rw [List.length_replicate]; decide),
      List.length_replicate,
      drop_more_append _ _ _ (by rw [c10_fwreg_length]; decide),
      c10_fwreg_length,
      drop_more_append _ _ _ (by decide),
      drop_more_append _ _ _ (by decide),
      List.append_assoc,
      drop_len_append _ _ _ (by decide),
      List.append_assoc, List.cons_append]
    exact List.take_of_length_le (by
      simp only [List.length_append, List.length_cons, List.length_replicate, hFL]
      decide)
  unfold convertEntries
  rw [c10_parse]
  dsimp only
  rw [show ([⟨str "os-image", 0x800, 2⟩, ⟨str "file-system", 0x802, 2⟩,
        ⟨str "partition-table", 0x804, 0x800⟩] : List FlashEntry).find?
        (fun e => e.name = str "os-image") = some ⟨str "os-image", 0x800, 2⟩
      from by decide,
    show ([⟨str "os-image", 0x800, 2⟩, ⟨str "file-system", 0x802, 2⟩,
        ⟨str "partition-table", 0x804, 0x800⟩] : List FlashEntry).find?
        (fun e => e.name = str "file-system") = some ⟨str "file-system", 0x802, 2⟩
      from by decide,
    show ([⟨str "os-image", 0x800, 2⟩, ⟨str "file-system", 0x802, 2⟩,
        ⟨str "partition-table", 0x804, 0x800⟩] : List FlashEntry).find?
        (fun e => e.name = str "partition-table") =
        some ⟨str "partition-table", 0x804, 0x800⟩
      from by decide]
  dsimp only
  rw [if_neg (by rw [hIL]; decide), hflreg,
    read_partition_table_flashLines ⟨str "os-image", 0x800, 1⟩
      [⟨str "file-system", 0x900, 1⟩]
      (List.replicate 1950 0xff ++ List.replicate 4 0xff)
      (by decide) (by decide)
      (by rw [hFL]; decide)
      (by rw [hFL, List.length_append, List.length_replicate, List.length_replicate]
          decide)]
  dsimp only
  rw [show ([⟨str "os-image", 0x800, 1⟩, ⟨str "file-system", 0x900, 1⟩] :
        List FlashEntry).find? (fun e => e.name = str "os-image") =
        some ⟨str "os-image", 0x800, 1⟩ from by decide,
    show ([⟨str "os-image", 0x800, 1⟩, ⟨str "file-system", 0x900, 1⟩] :
        List FlashEntry).find? (fun e => e.name = str "file-system") =
        some ⟨str "file-system", 0x900, 1⟩ from by decide]

/-- C10: the converter validates no capacity between the image table and
the flash table: whenever the partition lookups succeed and the input
covers both image partitions, conversion succeeds unconditionally, the
0xFF pad after the os-image bytes has length
flash_os.size - fwup_os.size wrapped modulo 2^32, and in the overflow
case (image partition bigger than the flash slot) that wrapped length is
the huge value 2^32 - (fwup_os.size - flash_os.size) rather than an
error. -/
theorem C10_convert_no_capacity_check (image : List Nat) (off : Nat)
    (fwup_os fwup_fs fwup_pt flash_os flash_fs : FlashEntry)
    (hce : convertEntries image =
      some (off, fwup_os, fwup_fs, fwup_pt, flash_os, flash_fs))
    (hlen1 : ¬ image.length < off + fwup_os.base + fwup_os.size)
    (hlen2 : ¬ image.length < off + fwup_fs.base + fwup_fs.size) :
    convert_firmware image = some
      [(0, (image.drop (off + fwup_os.base)).take fwup_os.size),
       (fwup_os.size, List.replicate (wrapSub flash_os.size fwup_os.size) 0xff),
       (wrapSub flash_fs.base flash_os.base,
         (image.drop (off + fwup_fs.base)).take fwup_fs.size)] ∧
    (flash_os.size < fwup_os.size → fwup_os.size < 2 ^ 32 →
      wrapSub flash_os.size fwup_os.size =
        2 ^ 32 - (fwup_os.size - flash_os.size)) := by
  constructor
  · unfold convert_firmware
    rw [hce]
    dsimp only
    rw [if_neg hlen1, if_neg hlen2]
  · intro hover hlt
    unfold wrapSub
    rw [Nat.mod_eq_of_lt (show flash_os.size < 2 ^ 32 by omega),
      Nat.mod_eq_of_lt (show fwup_os.size < 2 ^ 32 from hlt),
      Nat.mod_eq_of_lt (show flash_os.size + (2 ^ 32 - fwup_os.size) < 2 ^ 32 by omega)]
    omega

/-- C10 (witness): on the synthetic image whose image-table os-image
partition (2 bytes) exceeds the flash os-image slot (1 byte) the
converter succeeds anyway, with the wrapped pad length 2^32 - 1. -/
theorem C10_witness :
    (convert_firmware c10Image).isSome = true ∧
    wrapSub 1 2 = 2 ^ 32 - (2 - 1) := by
  have h := C10_convert_no_capacity_check c10Image 0x1014
    ⟨str "os-image", 0x800, 2⟩ ⟨str "file-system", 0x802, 2⟩
    ⟨str "partition-table", 0x804, 0x800⟩ ⟨str "os-image", 0x800, 1⟩
    ⟨str "file-system", 0x900, 1⟩ c10_entries
    (by rw [c10Image_length]; decide) (by rw [c10Image_length]; decide)
  exact ⟨by rw [h.1]; rfl, h.2 (by decide) (by decide)⟩

end Safeloader
